/-
Verification of the lelongtips property monitor's extraction-and-change-
detection core (src/src/monitor.py, class FixedFullScrapingPropertyMonitor).

Modelling conventions:
* Python strings are modelled through their character lists; the str methods
  and the concrete regular expressions the code uses are embedded for the
  ASCII range the scraped data lives in (Python's `\d`, `\s`, `\w`, `lower`
  and `strip` also cover some non-ASCII characters, which never occur here).
* `hashlib.md5(content.encode()).hexdigest()` is modelled as the message
  `content` itself: distinctness of digests is distinctness of messages up
  to MD5 collisions, which are outside this embedding.
* CPython's `float` is modelled as exact decimal arithmetic over ℚ;
  double-rounding artifacts are outside the embedding.
* Python dicts are modelled as insertion-ordered association lists.
-/
import Mathlib

/-! ## Character classes and string primitives -/

/-- Python's `\d` on ASCII. -/
def isPyDigit (c : Char) : Bool := '0' ≤ c && c ≤ '9'

/-- Python's `\s` (and `str.strip`'s whitespace) on ASCII. -/
def isPySpace (c : Char) : Bool :=
  c = ' ' || c = '\t' || c = '\n' || c = '\r' || c = '\x0b' || c = '\x0c'

/-- Python's `\w` on ASCII. -/
def isPyWord (c : Char) : Bool :=
  ('a' ≤ c && c ≤ 'z') || ('A' ≤ c && c ≤ 'Z') || isPyDigit c || c = '_'

/-- Python's `str.lower` on ASCII characters. -/
def pyCharLower (c : Char) : Char :=
  if 'A' ≤ c && c ≤ 'Z' then Char.ofNat (c.toNat + 32) else c

/-- Python's `str.lower`. -/
def pyLower (s : String) : String := String.mk (s.data.map pyCharLower)

/-- Drop trailing characters satisfying `p`. -/
def dropTrailWhile (p : Char → Bool) (l : List Char) : List Char :=
  (l.reverse.dropWhile p).reverse

/-- Python's `str.strip()` on a character list. -/
def pyStripList (l : List Char) : List Char :=
  dropTrailWhile isPySpace (l.dropWhile isPySpace)

/-- Worker for `collapseRuns`: `inRun` records whether the previous
character belonged to a whitespace run whose replacement was already
emitted. -/
def collapseRunsAux (rep : Char) : Bool → List Char → List Char
  | _, [] => []
  | inRun, c :: cs =>
    if isPySpace c then
      if inRun then collapseRunsAux rep true cs
      else rep :: collapseRunsAux rep true cs
    else c :: collapseRunsAux rep false cs

/-- Python's `re.sub(r"\s+", rep, s)` for a one-character replacement `rep`:
every maximal whitespace run becomes the single character `rep`. -/
def collapseRuns (rep : Char) (l : List Char) : List Char :=
  collapseRunsAux rep false l

/-- Does the text start with the pattern (first argument)? -/
def startsList : List Char → List Char → Bool
  | [], _ => true
  | _ :: _, [] => false
  | a :: as, b :: bs => a = b && startsList as bs

/-- Python's `pat in s` substring test. -/
def hasSub (pat : List Char) : List Char → Bool
  | [] => startsList pat []
  | c :: rest => startsList pat (c :: rest) || hasSub pat rest

/-- Decimal value of a digit run. -/
def digitsNat (l : List Char) : ℕ := l.foldl (fun a c => 10 * a + (c.toNat - 48)) 0

/-! ## Identity helpers (monitor.py lines 111-138, 172-197) -/

/-- Embeds `normalize_text` (monitor.py lines 111-116): empty in, empty out;
otherwise strip, lowercase, collapse internal whitespace runs to one space. -/
def normalize_text (s : String) : String :=
  if s = "" then "" else String.mk (collapseRuns ' ' ((pyStripList s.data).map pyCharLower))

/-- Embeds `normalize_size` (monitor.py lines 118-127): lowercase, keep the
digit characters in order (`re.findall(r"\d+", s)` joined is exactly the
digit characters of `s` in order), and a coarse "sqft" unit tag. -/
def normalize_size (s : String) : String :=
  if s = "" then ""
  else
    let l := s.data.map pyCharLower
    let num := l.filter isPyDigit
    let unit := if hasSub "sq.ft".data l || hasSub "sqft".data l then "sqft".data else []
    String.mk (num ++ unit)

/-- Embeds `create_property_hash` (monitor.py lines 172-180). The source
computes the md5 hexdigest of this lowercased content string; the digest is
modelled as the message itself (see the header note on MD5). -/
def create_property_hash (title price auction_date location size : String) : String :=
  pyLower (title ++ "_" ++ price ++ "_" ++ auction_date ++ "_" ++ location ++ "_" ++ size)

/-- Embeds `re.sub(r"[^\w\s]", "", s)` as used by `create_property_id`. -/
def stripPunct (s : String) : List Char :=
  s.data.filter (fun c => isPyWord c || isPySpace c)

/-- Embeds `create_property_id` (monitor.py lines 182-197): strip punctuation
from the three fields, join with underscores, strip, collapse whitespace to
underscores, lowercase, fall back to "property" when empty, truncate to 100. -/
def create_property_id (title location size : String) : String :=
  let base0 := stripPunct title ++ '_' :: stripPunct location ++ '_' :: stripPunct size
  let base1 := (collapseRuns '_' (pyStripList base0)).map pyCharLower
  let base2 := if base1 = [] then "property".data else base1
  String.mk (base2.take 100)

/-! ## Validators (monitor.py lines 200-233) -/

/-- Embeds `re.sub(r"[^\d.]", "", price_str)`. -/
def rmNonDigitDot (s : String) : List Char :=
  s.data.filter (fun c => isPyDigit c || c = '.')

/-- Python's `float()` on a string of digits and dots: at most one dot and at
least one digit, value read as an exact decimal (see the header note). -/
def parseDecimal (l : List Char) : Option ℚ :=
  if l.count '.' = 0 then
    if l = [] then none else some (digitsNat l : ℚ)
  else if l.count '.' = 1 then
    let a := l.takeWhile (fun c => c ≠ '.')
    let b := (l.dropWhile (fun c => c ≠ '.')).tail
    if a = [] ∧ b = [] then none
    else some ((digitsNat a : ℚ) + (digitsNat b : ℚ) / (10 : ℚ) ^ b.length)
  else none

/-- `self.min_price` (monitor.py line 87). -/
def min_price : ℚ := 50000

/-- `self.max_price` (monitor.py line 88). -/
def max_price : ℚ := 500000000

/-- Embeds `validate_price` (monitor.py lines 200-216). `int()` on the
nonnegative values arising here is the floor. A failed `float()` parse is the
caught exception returning `(False, 0)`. -/
def validate_price (price_str : String) : Bool × ℤ :=
  let price_clean := rmNonDigitDot price_str
  if price_clean = [] then (false, 0)
  else
    match parseDecimal price_clean with
    | none => (false, 0)
    | some p0 =>
      let price := if p0 < 1000 then p0 * 1000 else p0
      if min_price ≤ price ∧ price ≤ max_price then (true, ⌊price⌋)
      else (false, ⌊price⌋)

/-- Deterministic reading of `re.match(r"\d{1,2}\s+\w{3}\s+\d{4}\s+\(\w{3}\)", s)`
(monitor.py line 221). `re.match` anchors only the start. Backtracking never
helps this pattern: each bounded class is followed by a class disjoint from
it (digits by whitespace, word runs of fixed width by whitespace or a
parenthesis), so maximal-munch scanning is equivalent. -/
def matchDateShape (s : List Char) : Bool :=
  let d := s.takeWhile isPyDigit
  let r1 := s.dropWhile isPyDigit
  let ws1 := r1.takeWhile isPySpace
  let r2 := r1.dropWhile isPySpace
  let m := r2.take 3
  let r3 := r2.drop 3
  let ws2 := r3.takeWhile isPySpace
  let r4 := r3.dropWhile isPySpace
  let y := r4.take 4
  let r5 := r4.drop 4
  let ws3 := r5.takeWhile isPySpace
  let r6 := r5.dropWhile isPySpace
  decide (1 ≤ d.length) && decide (d.length ≤ 2) &&
  decide (1 ≤ ws1.length) &&
  decide (m.length = 3) && m.all isPyWord &&
  decide (1 ≤ ws2.length) &&
  decide (y.length = 4) && y.all isPyDigit &&
  decide (1 ≤ ws3.length) &&
  decide (r6.take 1 = ['(']) &&
  (let w := (r6.drop 1).take 3
   decide (w.length = 3) && w.all isPyWord &&
   decide (((r6.drop 1).drop 3).take 1 = [')']))

/-- Embeds `re.search(r"\d{4}", s)` read as a number: the first window of four
consecutive digits. -/
def searchYear : List Char → Option ℕ
  | [] => none
  | c :: rest =>
    if ((c :: rest).take 4).length = 4 && ((c :: rest).take 4).all isPyDigit
    then some (digitsNat ((c :: rest).take 4))
    else searchYear rest

/-- Embeds `validate_auction_date` (monitor.py lines 218-233). The source
reads `datetime.now().year`; that ambient value is the explicit
`current_year` argument here. -/
def validate_auction_date (current_year : ℕ) (date_str : String) : Bool :=
  if matchDateShape date_str.data then
    match searchYear date_str.data with
    | some year => decide (current_year ≤ year) && decide (year ≤ current_year + 1)
    | none => false
  else false

/-! ## Data model for change detection (monitor.py lines 799-957)

A property record is a Python dict; the change detector reads the fields
below. `price`, `auction_date`, `last_updated` are accessed unconditionally
(the pipeline always populates them, with `title`, `location`, `size`);
`first_seen`, `_stable_key` and the two history lists are probed with
`in` / `.get` and so are `Option`s. A history item models `{price, date}`
resp. `{auction_date, date}` as a (value, date) pair. -/

structure Rec where
  title : String
  location : String
  size : String
  price : String
  auction_date : String
  last_updated : String
  first_seen : Option String
  stable_key : Option String
  price_history : Option (List (String × String))
  auction_date_history : Option (List (String × String))
deriving DecidableEq

/-- Embeds `generate_stable_key` (monitor.py lines 129-138). -/
def generate_stable_key (prop : Rec) : String :=
  normalize_text prop.title ++ "|" ++ normalize_text prop.location ++ "|"
    ++ normalize_size prop.size

/-- The stored `_stable_key` read with `.get`: Python's `None` and a missing
key are both falsy, like the empty string, so they are merged into `""`. -/
def skRaw (e : Rec) : String := e.stable_key.getD ""

/-- The key the detector works with: the stored `_stable_key` unless falsy,
else `generate_stable_key` (monitor.py lines 819-822 and 828-831). -/
def skOf (e : Rec) : String :=
  if skRaw e = "" then generate_stable_key e else skRaw e

/-- The in-place write `x["_stable_key"] = sk` performed when the stored key
is falsy (monitor.py lines 820-822 and 830-831). -/
def fillSk (e : Rec) : Rec :=
  if skRaw e = "" then { e with stable_key := some (generate_stable_key e) } else e

/-- One entry of a `changes` list (monitor.py lines 874-882 and 902-910);
`ctype` models the dict key `"type"`. -/
structure ChangeItem where
  ctype : String
  field : String
  old_value : String
  new_value : String
  change_date : String
deriving DecidableEq

/-- One value of `changed_properties` (monitor.py lines 936-945). -/
structure ChangedEntry where
  property : Rec
  changes : List ChangeItem
  price_history : List (String × String)
  auction_date_history : List (String × String)
deriving DecidableEq

/-! ### Association-list dictionaries -/

/-- Python `d[k]` read (first, hence unique, binding). -/
def lookupA {α : Type} : List (String × α) → String → Option α
  | [], _ => none
  | (k', v) :: rest, k => if k' = k then some v else lookupA rest k

/-- Python `k in d`. -/
def keyMem {α : Type} (l : List (String × α)) (k : String) : Bool :=
  (lookupA l k).isSome

/-- Python `d[k] = v`: overwrite in place, or append a new binding. -/
def setA {α : Type} : List (String × α) → String → α → List (String × α)
  | [], k, v => [(k, v)]
  | (k', v') :: rest, k, v =>
    if k' = k then (k, v) :: rest else (k', v') :: setA rest k v

/-! ### The change detector -/

/-- The index-building pass over the stored database (monitor.py lines
817-824): compute missing stable keys in place and map each stable key to
the first record-id carrying it. -/
def buildIndexStep (acc : List (String × Rec) × List (String × String))
    (p : String × Rec) : List (String × Rec) × List (String × String) :=
  let sk := skOf p.2
  let idx := if sk ≠ "" ∧ ¬ keyMem acc.2 sk then setA acc.2 sk p.1 else acc.2
  (acc.1 ++ [(p.1, fillSk p.2)], idx)

/-- `buildIndex db = (db with stable keys filled in, stable_index)`. -/
def buildIndex (db : List (String × Rec)) :
    List (String × Rec) × List (String × String) :=
  db.foldl buildIndexStep ([], [])

/-- Overwrite-if-present for an optional dict key: `d.update(c)` takes the
current value exactly when the current dict carries the key. -/
def updOpt {α : Type} (curv old : Option α) : Option α :=
  match curv with
  | some v => some v
  | none => old

/-- Python `existing.update(current)` between two records: every field the
current record carries overwrites the stored one. -/
def dictUpdate (e c : Rec) : Rec where
  title := c.title
  location := c.location
  size := c.size
  price := c.price
  auction_date := c.auction_date
  last_updated := c.last_updated
  first_seen := updOpt c.first_seen e.first_seen
  stable_key := updOpt c.stable_key e.stable_key
  price_history := updOpt c.price_history e.price_history
  auction_date_history := updOpt c.auction_date_history e.auction_date_history

/-- The fresh database entry for a new listing (monitor.py lines 848-863):
the current record plus seeded histories and the stable key. -/
def seedEntry (c : Rec) (sk : String) : Rec :=
  { c with
    price_history := some [(c.price, c.last_updated)]
    auction_date_history := some [(c.auction_date, c.last_updated)]
    stable_key := some sk }

/-- The write `existing["_stable_key"] = sk` guarded by key membership
(monitor.py lines 869-870). -/
def fillSkWith (e : Rec) (sk : String) : Rec :=
  if e.stable_key.isNone then { e with stable_key := some sk } else e

/-- The price block's history mutation (monitor.py lines 884-898), applied
only when the price differs. -/
def applyPrice (e c : Rec) : Rec :=
  if c.price ≠ e.price then
    let ph := e.price_history.getD [(e.price, e.first_seen.getD c.last_updated)]
    { e with price_history := some (ph ++ [(c.price, c.last_updated)]) }
  else e

/-- The auction-date block's history mutation (monitor.py lines 912-926). -/
def applyDate (e c : Rec) : Rec :=
  if c.auction_date ≠ e.auction_date then
    let ah := e.auction_date_history.getD
      [(e.auction_date, e.first_seen.getD c.last_updated)]
    { e with auction_date_history := some (ah ++ [(c.auction_date, c.last_updated)]) }
  else e

/-- The `changes` list of the matched branch (monitor.py lines 872-910): the
price comparison reads the stored price before any mutation, and the date
comparison reads the stored date, which the price block never touches. -/
def entryChanges (e c : Rec) : List ChangeItem :=
  (if c.price ≠ e.price then
    [⟨"price_change", "Auction Price", e.price, c.price, c.last_updated⟩]
  else []) ++
  (if c.auction_date ≠ e.auction_date then
    [⟨"auction_date_change", "Auction Date", e.auction_date, c.auction_date,
      c.last_updated⟩]
  else [])

/-- The matched entry after the two history blocks (monitor.py up to line
926): stable key filled if the key was absent, then both histories. -/
def historiedEntry (e c : Rec) (sk : String) : Rec :=
  applyDate (applyPrice (fillSkWith e sk) c) c

/-- The final state of a matched database entry (monitor.py lines 947-952).
`existing_data` aliases `database[existing_id]`, so the `first_seen`
restore on line 949 reads the value that `update(current_data)` has already
overwritten. -/
def touchEntry (e c : Rec) (sk : String) : Rec :=
  let e3 := historiedEntry e c sk
  let e4 := dictUpdate e3 c
  let e5 := { e4 with first_seen := some (e4.first_seen.getD c.last_updated) }
  { e5 with stable_key := some sk }

/-- The `changed_properties` value of a matched record with changes
(monitor.py lines 928-945): the merged snapshot keeps a truthy stored title
over a synthetic current one, and the histories are read after appending. -/
def changedOf (e c : Rec) (sk : String) : ChangedEntry :=
  let e3 := historiedEntry e c sk
  let snap0 := dictUpdate e3 c
  let snap :=
    if e3.title ≠ "" ∧ startsList "Property Listing P".data c.title.data then
      { snap0 with title := e3.title }
    else snap0
  ⟨snap, entryChanges e c, e3.price_history.getD [], e3.auction_date_history.getD []⟩

/-- The evolving state of the detector's main loop. `cur` collects the
current records as the loop leaves them (their stable key filled in). -/
structure DetectState where
  db : List (String × Rec)
  idx : List (String × String)
  news : List (String × Rec)
  changed : List (String × ChangedEntry)
  cur : List (String × Rec)
deriving DecidableEq

/-- One iteration of the detector's loop over the current records
(monitor.py lines 826-952). The inner `none` arm is unreachable — the
index's values are always database keys, and Python would raise a KeyError
there — and is modelled as a skip. -/
def processOne (st : DetectState) (p : String × Rec) : DetectState :=
  let cid := p.1
  let c := fillSk p.2
  let sk := skOf p.2
  let target : Option String :=
    if keyMem st.db cid then some cid else lookupA st.idx sk
  match target with
  | none =>
    { db := setA st.db cid (seedEntry c sk)
      idx := setA st.idx sk cid
      news := setA st.news cid c
      changed := st.changed
      cur := st.cur ++ [(cid, c)] }
  | some eid =>
    match lookupA st.db eid with
    | none => { st with cur := st.cur ++ [(cid, c)] }
    | some e =>
      let changes := entryChanges e c
      let changed' :=
        if changes ≠ [] then setA st.changed eid (changedOf e c sk) else st.changed
      { db := setA st.db eid (touchEntry e c sk)
        idx := st.idx
        news := st.news
        changed := changed'
        cur := st.cur ++ [(cid, c)] }

/-- What `detect_changes` leaves behind: its two returned mappings, the
database it mutated in place, and the current records it mutated in place. -/
structure DetectResult where
  new_listings : List (String × Rec)
  changed_properties : List (String × ChangedEntry)
  database : List (String × Rec)
  current : List (String × Rec)
deriving DecidableEq

/-- Embeds `detect_changes` (monitor.py lines 799-957). -/
def detect_changes (current : List (String × Rec))
    (database : List (String × Rec)) : DetectResult :=
  let bi := buildIndex database
  let fin := current.foldl processOne ⟨bi.1, bi.2, [], [], []⟩
  ⟨fin.news, fin.changed, fin.db, fin.cur⟩

/-! ## The scrape orchestrator's loop (monitor.py lines 688-761)

The loop body fetches and scans one page; its observable result is either a
completed page together with the elapsed wall-clock seconds the code reads
at the post-page check (monitor.py lines 741-744), or an exception caught by
the per-page handler. That per-page outcome is the oracle `f` below; the
loop structure itself — the time-limit break on the success path and the
error-count break on the exception path — is translated directly. -/

inductive PageOutcome where
  | ok (elapsed : ℕ) : PageOutcome
  | err (elapsed : ℕ) : PageOutcome
deriving DecidableEq

/-- Did scraping this page raise? -/
def isErrPage (o : PageOutcome) : Bool :=
  match o with
  | .ok _ => false
  | .err _ => true

/-- The run statistics the loop maintains: pages entered, pages whose
exception was appended to `errors`, and the early-stop markers. -/
structure ScrapeStats where
  pages : List ℕ
  errorPages : List ℕ
  stoppedEarly : Bool
  stopReason : Option String
deriving DecidableEq

/-- The loop from `page` with `fuel` pages left (monitor.py lines 688-761):
on success check `elapsed > 1200`, on exception append the error and check
`len(errors) > 10`; otherwise continue with the next page. -/
def scrapeGo (f : ℕ → PageOutcome) : ℕ → ℕ → ScrapeStats → ScrapeStats
  | _, 0, st => st
  | page, fuel + 1, st =>
    let st1 := { st with pages := st.pages ++ [page] }
    match f page with
    | .ok e =>
      if 1200 < e then
        { st1 with stoppedEarly := true, stopReason := some "Time limit" }
      else scrapeGo f (page + 1) fuel st1
    | .err _ =>
      let st2 := { st1 with errorPages := st1.errorPages ++ [page] }
      if 10 < st2.errorPages.length then
        { st2 with stoppedEarly := true, stopReason := some "Too many errors" }
      else scrapeGo f (page + 1) fuel st2

/-- Embeds the page loop of `scrape_all_pages` (monitor.py lines 688-761),
pages 1 through `total_pages`. -/
def scrape_all_pages (f : ℕ → PageOutcome) (total_pages : ℕ) : ScrapeStats :=
  scrapeGo f 1 total_pages ⟨[], [], false, none⟩

/-! ## Auxiliary definitions for the statements -/

/-- The spec's exact date shape, for comparison with the code: the same
pattern as `matchDateShape` anchored at both ends (the spec's §4.1 "Requires
exact shape" reading of the regular expression), written from the spec's
words. -/
def matchDateShapeExact (s : List Char) : Bool :=
  let d := s.takeWhile isPyDigit
  let r1 := s.dropWhile isPyDigit
  let ws1 := r1.takeWhile isPySpace
  let r2 := r1.dropWhile isPySpace
  let m := r2.take 3
  let r3 := r2.drop 3
  let ws2 := r3.takeWhile isPySpace
  let r4 := r3.dropWhile isPySpace
  let y := r4.take 4
  let r5 := r4.drop 4
  let ws3 := r5.takeWhile isPySpace
  let r6 := r5.dropWhile isPySpace
  decide (1 ≤ d.length) && decide (d.length ≤ 2) &&
  decide (1 ≤ ws1.length) &&
  decide (m.length = 3) && m.all isPyWord &&
  decide (1 ≤ ws2.length) &&
  decide (y.length = 4) && y.all isPyDigit &&
  decide (1 ≤ ws3.length) &&
  decide (r6.take 1 = ['(']) &&
  (let w := (r6.drop 1).take 3
   decide (w.length = 3) && w.all isPyWord &&
   decide ((r6.drop 1).drop 3 = [')']))

/-- The match target the detector's loop computes for one current record,
read off statically against the initial database: a direct record-id hit,
else the stable-index lookup (monitor.py lines 833-843). -/
def target0 (db : List (String × Rec)) (p : String × Rec) : Option String :=
  if keyMem db p.1 then some p.1 else lookupA (buildIndex db).2 (skOf p.2)

/-- A scraped record as the extractor emits it: the six always-populated
string fields plus `first_seen` (monitor.py lines 655-660 always set
`last_updated` and `first_seen`; histories and the stable key are absent). -/
def scrapedRec (t l s p d lu : String) : Rec :=
  ⟨t, l, s, p, d, lu, some lu, none, none, none⟩

/-- The §8 end-to-end scenario's first sighting. -/
def menaraRec1 : Rec :=
  scrapedRec "Menara UP Office Unit" "Kuala Lumpur" "1,323 sq.ft" "RM204,000"
    "15 Sep 2025 (Mon)" "2025-09-01T09:00:00"

/-- The §8 end-to-end scenario's second sighting: only the price (and the
run timestamp) differ. -/
def menaraRec2 : Rec :=
  scrapedRec "Menara UP Office Unit" "Kuala Lumpur" "1,323 sq.ft" "RM195,000"
    "15 Sep 2025 (Mon)" "2025-09-02T09:00:00"

/-- The record-id the orchestrator files the scenario's record under. -/
def menaraId : String :=
  create_property_id "Menara UP Office Unit" "Kuala Lumpur" "1,323 sq.ft"

/-- The time-limit stop condition at a page: the page completed and the
elapsed wall-clock read after it exceeds 1200 seconds (monitor.py line 745). -/
def timeTrip (f : ℕ → PageOutcome) (p : ℕ) : Prop :=
  ∃ e, f p = .ok e ∧ 1200 < e

/-- Error pages among pages 1..p. -/
def countErr (f : ℕ → PageOutcome) (p : ℕ) : ℕ :=
  ((List.range' 1 p).filter (fun q => isErrPage (f q))).length

/-- The error-count stop condition at a page: the page raised and the errors
accumulated through it exceed 10 (monitor.py line 756). -/
def errTrip (f : ℕ → PageOutcome) (p : ℕ) : Prop :=
  (∃ e, f p = .err e) ∧ 10 < countErr f p

/-- A sighting whose size field spaces the digit groups: its record-id keeps
that inner separator, but its stable key normalises it away. -/
def sharedSkRecA : Rec :=
  scrapedRec "Menara X" "KL" "1 323 sq.ft" "RM500,000" "12 Jan 2026 (Mon)"
    "2026-01-01T09:00:00"

/-- The same property sighted with a comma-grouped size and another price:
a different record-id, the same stable key. -/
def sharedSkRecB : Rec :=
  scrapedRec "Menara X" "KL" "1,323 sq.ft" "RM400,000" "12 Jan 2026 (Mon)"
    "2026-01-01T09:00:00"

/-- The record-id of the space-grouped sighting. -/
def sharedSkIdA : String := create_property_id "Menara X" "KL" "1 323 sq.ft"

/-- The record-id of the comma-grouped sighting. -/
def sharedSkIdB : String := create_property_id "Menara X" "KL" "1,323 sq.ft"

/-- A current-records snapshot holding both sightings under their own
record-ids. -/
def sharedSkCurrent : List (String × Rec) :=
  [(sharedSkIdA, sharedSkRecA), (sharedSkIdB, sharedSkRecB)]

/-- The loop's dynamic match target against its working store and index
(monitor.py lines 833-843). -/
def dynTarget (db : List (String × Rec)) (idx : List (String × String))
    (p : String × Rec) : Option String :=
  if keyMem db p.1 then some p.1 else lookupA idx (skOf p.2)

/-- The final value one stored entry takes over a whole run: touched by the
first current record the loop matches onto its id, else left alone. -/
def updEntry (current db0 : List (String × Rec)) (q : String × Rec) : Rec :=
  match current.find? (fun p => decide (target0 db0 p = some q.1)) with
  | some p => touchEntry q.2 (fillSk p.2) (skOf p.2)
  | none => q.2

/-- The entries a run appends to the store for its new listings, in order. -/
def seedsOf (current db0 : List (String × Rec)) : List (String × Rec) :=
  (current.filter (fun p => decide (target0 db0 p = none))).map
    (fun p => (p.1, seedEntry (fillSk p.2) (skOf p.2)))

/-- The stable-index bindings a run's new listings append. -/
def newBindings (current db0 : List (String × Rec)) : List (String × String) :=
  (current.filter (fun p => decide (target0 db0 p = none))).map
    (fun p => (skOf p.2, p.1))

/-- The store as one run of the detector leaves it: every entry stable-key
filled, matched entries touched, new entries appended. -/
def run1Db (current db0 : List (String × Rec)) : List (String × Rec) :=
  (buildIndex db0).1.map (fun q => (q.1, updEntry current db0 q))
    ++ seedsOf current db0

/-! ## Helper lemmas on characters and the string primitives -/

/-- Char order is the order of the code points. -/
theorem char_le_iff (a b : Char) : a ≤ b ↔ a.toNat ≤ b.toNat := by
  rw [Char.le_def, UInt32.le_def, BitVec.le_def]
  exact Iff.rfl

/-- Code point of a valid `Char.ofNat`. -/
theorem char_toNat_ofNat (n : ℕ) (h : n.isValidChar) : (Char.ofNat n).toNat = n := by
  simp [Char.ofNat, dif_pos h, Char.ofNatAux, Char.toNat]
  rfl

/-- Lowercasing either leaves a character alone or lands in code points
97 to 122 (the ASCII lowercase letters). -/
theorem pyCharLower_cases (c : Char) :
    pyCharLower c = c ∨ (97 ≤ (pyCharLower c).toNat ∧ (pyCharLower c).toNat ≤ 122) := by
  unfold pyCharLower
  by_cases h : ('A' ≤ c && c ≤ 'Z') = true
  · right
    rw [if_pos h]
    rw [Bool.and_eq_true, decide_eq_true_eq, decide_eq_true_eq] at h
    have h1 : ('A' : Char).toNat ≤ c.toNat := (char_le_iff _ _).mp h.1
    have h2 : c.toNat ≤ ('Z' : Char).toNat := (char_le_iff _ _).mp h.2
    have hA : ('A' : Char).toNat = 65 := by decide
    have hZ : ('Z' : Char).toNat = 90 := by decide
    have hv : (c.toNat + 32).isValidChar := Or.inl (by omega)
    rw [char_toNat_ofNat _ hv]
    omega
  · left
    rw [if_neg h]

/-- Lowercasing a non-whitespace character never yields whitespace. -/
theorem pyCharLower_not_space {c : Char} (h : isPySpace c = false) :
    isPySpace (pyCharLower c) = false := by
  rcases pyCharLower_cases c with he | ⟨h1, _⟩
  · rw [he]; exact h
  · unfold isPySpace
    have ne : ∀ y : Char, y.toNat < 97 → (pyCharLower c = y) = False := by
      intro y hy
      simp only [eq_iff_iff, iff_false]
      intro e
      rw [e] at h1
      omega
    simp [ne ' ' (by decide), ne '\t' (by decide), ne '\n' (by decide),
      ne '\r' (by decide), ne '\x0b' (by decide), ne '\x0c' (by decide)]

/-- Lowercased characters are never ASCII uppercase. -/
theorem pyCharLower_not_upper (c : Char) :
    ¬ ('A' ≤ pyCharLower c ∧ pyCharLower c ≤ 'Z') := by
  rintro ⟨hA, hZ⟩
  rw [char_le_iff] at hA hZ
  have hAn : ('A' : Char).toNat = 65 := by decide
  have hZn : ('Z' : Char).toNat = 90 := by decide
  rcases pyCharLower_cases c with he | ⟨h1, _⟩
  · rw [he] at hA hZ
    have hcond : ('A' ≤ c && c ≤ 'Z') = true := by
      rw [Bool.and_eq_true, decide_eq_true_eq, decide_eq_true_eq,
        char_le_iff, char_le_iff]
      omega
    have hv : (c.toNat + 32).isValidChar := Or.inl (by omega)
    have ht : (pyCharLower c).toNat = c.toNat + 32 := by
      unfold pyCharLower
      rw [if_pos hcond]
      exact char_toNat_ofNat _ hv
    rw [he] at ht
    omega
  · omega

/-- Members of `dropWhile` come from the list. -/
theorem mem_of_mem_dropWhile {p : Char → Bool} {c : Char} :
    ∀ {l : List Char}, c ∈ l.dropWhile p → c ∈ l := by
  intro l
  induction l with
  | nil => intro h; simp [List.dropWhile] at h
  | cons x xs ih =>
    intro h
    by_cases hx : p x
    · simp only [List.dropWhile, hx] at h
      exact List.mem_cons_of_mem x (ih h)
    · have hx' : p x = false := by simpa using hx
      simp only [List.dropWhile, hx'] at h
      exact h

/-- A non-matching member survives `dropWhile`. -/
theorem mem_dropWhile_of_mem {p : Char → Bool} {c : Char} (hc : p c = false) :
    ∀ {l : List Char}, c ∈ l → c ∈ l.dropWhile p := by
  intro l
  induction l with
  | nil => intro h; cases h
  | cons x xs ih =>
    intro h
    by_cases hx : p x
    · simp only [List.dropWhile, hx]
      rcases List.mem_cons.mp h with he | hm
      · subst he; rw [hc] at hx; cases hx
      · exact ih hm
    · have hx' : p x = false := by simpa using hx
      simp only [List.dropWhile, hx']
      exact h

/-- Members of `pyStripList` come from the list. -/
theorem mem_of_mem_pyStripList {c : Char} {l : List Char} (h : c ∈ pyStripList l) :
    c ∈ l := by
  unfold pyStripList dropTrailWhile at h
  have h1 := List.mem_reverse.mpr h
  rw [List.reverse_reverse] at h1
  have h2 := mem_of_mem_dropWhile h1
  exact mem_of_mem_dropWhile (List.mem_reverse.mp h2)

/-- A non-whitespace member survives `str.strip`. -/
theorem mem_pyStripList_of_mem {c : Char} (hc : isPySpace c = false) {l : List Char}
    (h : c ∈ l) : c ∈ pyStripList l := by
  unfold pyStripList dropTrailWhile
  rw [List.mem_reverse]
  exact mem_dropWhile_of_mem hc (by rw [List.mem_reverse]; exact mem_dropWhile_of_mem hc h)

/-- Characters of a collapsed string: the replacement, or a non-whitespace
character of the input. -/
theorem mem_collapseRunsAux {rep c : Char} :
    ∀ {l : List Char} {b : Bool}, c ∈ collapseRunsAux rep b l →
      c = rep ∨ (c ∈ l ∧ isPySpace c = false) := by
  intro l
  induction l with
  | nil => intro b h; simp [collapseRunsAux] at h
  | cons x xs ih =>
    intro b h
    by_cases hx : isPySpace x
    · rw [collapseRunsAux, if_pos hx] at h
      rcases b with _ | _
      · rw [if_neg (by simp)] at h
        rcases List.mem_cons.mp h with he | hm
        · exact Or.inl he
        · rcases ih hm with he | ⟨hmem, hns⟩
          · exact Or.inl he
          · exact Or.inr ⟨List.mem_cons_of_mem x hmem, hns⟩
      · rw [if_pos rfl] at h
        rcases ih h with he | ⟨hmem, hns⟩
        · exact Or.inl he
        · exact Or.inr ⟨List.mem_cons_of_mem x hmem, hns⟩
    · rw [collapseRunsAux, if_neg hx] at h
      rcases List.mem_cons.mp h with he | hm
      · subst he
        exact Or.inr ⟨List.mem_cons_self _ _, by simpa using hx⟩
      · rcases ih hm with he | ⟨hmem, hns⟩
        · exact Or.inl he
        · exact Or.inr ⟨List.mem_cons_of_mem x hmem, hns⟩

/-- Characters of a collapsed string: the replacement, or a non-whitespace
character of the input. -/
theorem mem_collapseRuns {rep c : Char} {l : List Char}
    (h : c ∈ collapseRuns rep l) : c = rep ∨ (c ∈ l ∧ isPySpace c = false) :=
  mem_collapseRunsAux h

/-- Collapsing keeps a nonempty list nonempty. -/
theorem collapseRuns_ne_nil {rep : Char} {l : List Char} (h : l ≠ []) :
    collapseRuns rep l ≠ [] := by
  cases l with
  | nil => cases h rfl
  | cons x xs =>
    rw [collapseRuns, collapseRunsAux]
    by_cases hx : isPySpace x
    · rw [if_pos hx, if_neg (by simp)]
      exact List.cons_ne_nil _ _
    · rw [if_neg hx]
      exact List.cons_ne_nil _ _

/-! ## Claim C1: stable identity ignores the volatile fields -/

/-- C1: for every property record R and every record R' that differs from R
only in price and/or auction_date (all identity fields equal),
`generate_stable_key` and `create_property_id` — which read only title,
location and size — agree on R and R'; the record-id depends on no volatile
field. -/
theorem stable_key_invariance (r r' : Rec)
    (ht : r'.title = r.title) (hl : r'.location = r.location) (hs : r'.size = r.size) :
    generate_stable_key r' = generate_stable_key r ∧
    create_property_id r'.title r'.location r'.size
      = create_property_id r.title r.location r.size := by
  constructor
  · unfold generate_stable_key
    rw [ht, hl, hs]
  · rw [ht, hl, hs]

/-- Witness for C1: the §8 record with its price and auction date replaced
keeps the same stable key and record-id. -/
theorem stable_key_invariance_witness :
    generate_stable_key
        (scrapedRec "Menara UP Office Unit" "Kuala Lumpur" "1,323 sq.ft" "RM195,000"
          "22 Sep 2025 (Mon)" "lu2")
      = generate_stable_key menaraRec1 ∧
    create_property_id
        (scrapedRec "Menara UP Office Unit" "Kuala Lumpur" "1,323 sq.ft" "RM195,000"
          "22 Sep 2025 (Mon)" "lu2").title
        (scrapedRec "Menara UP Office Unit" "Kuala Lumpur" "1,323 sq.ft" "RM195,000"
          "22 Sep 2025 (Mon)" "lu2").location
        (scrapedRec "Menara UP Office Unit" "Kuala Lumpur" "1,323 sq.ft" "RM195,000"
          "22 Sep 2025 (Mon)" "lu2").size
      = create_property_id menaraRec1.title menaraRec1.location menaraRec1.size :=
  stable_key_invariance menaraRec1
    (scrapedRec "Menara UP Office Unit" "Kuala Lumpur" "1,323 sq.ft" "RM195,000"
      "22 Sep 2025 (Mon)" "lu2") rfl rfl rfl

/-! ## Claim C2: what a matched store entry looks like after the detector -/

/-- C2 (code bug): a store entry matched by a current sighting does not keep
its original `first_seen` — `database[existing_id].update(current_data)`
mutates the dict `existing_data` aliases, so the restore on monitor.py line
949 reads the already-overwritten value — and the synthetic current title
overwrites the stored resolved title in the store (the resolved title is
preserved only in the changed-properties report snapshot). Evaluated on a
store entry first seen 2025-01-01 and a later synthetic-title sighting. -/
theorem store_first_seen_overwritten :
    ((lookupA (detect_changes
        [("store_id", scrapedRec "Property Listing P1-0" "Kuala Lumpur" "1,323 sq.ft"
            "RM195,000" "15 Sep 2025 (Mon)" "2025-09-15T09:00:00")]
        [("store_id", scrapedRec "Menara UP Office Unit" "Kuala Lumpur" "1,323 sq.ft"
            "RM204,000" "15 Sep 2025 (Mon)" "2025-01-01T09:00:00")]).database
        "store_id").map (fun e => (e.first_seen, e.title)))
      = some (some "2025-09-15T09:00:00", "Property Listing P1-0") ∧
    ((lookupA (detect_changes
        [("store_id", scrapedRec "Property Listing P1-0" "Kuala Lumpur" "1,323 sq.ft"
            "RM195,000" "15 Sep 2025 (Mon)" "2025-09-15T09:00:00")]
        [("store_id", scrapedRec "Menara UP Office Unit" "Kuala Lumpur" "1,323 sq.ft"
            "RM204,000" "15 Sep 2025 (Mon)" "2025-01-01T09:00:00")]).changed_properties
        "store_id").map (fun ce => ce.property.title))
      = some "Menara UP Office Unit" ∧
    (some "2025-01-01T09:00:00" : Option String) ≠ some "2025-09-15T09:00:00" ∧
    ("Menara UP Office Unit" : String) ≠ "Property Listing P1-0" := by
  refine ⟨rfl, rfl, by decide, by decide⟩

/-! ## Claim C6: the end-to-end §8 scenario -/

/-- C6: from an empty store, the Menara record is reported as 1 new and 0
changed and stored with a one-entry price history; re-running with only the
price changed to RM195,000 reports 0 new and 1 changed with exactly one
change entry (field "Auction Price", old RM204,000, new RM195,000), the
price history reaches length 2, and the record-id and stable key are
unchanged. -/
theorem end_to_end_menara_scenario :
    (detect_changes [(menaraId, menaraRec1)] []).new_listings.length = 1 ∧
    (detect_changes [(menaraId, menaraRec1)] []).changed_properties = [] ∧
    (detect_changes [(menaraId, menaraRec1)] []).database.length = 1 ∧
    ((lookupA (detect_changes [(menaraId, menaraRec1)] []).database menaraId).map
      (fun e => (e.price_history.getD []).length)) = some 1 ∧
    (detect_changes [(menaraId, menaraRec2)]
      (detect_changes [(menaraId, menaraRec1)] []).database).new_listings = [] ∧
    (detect_changes [(menaraId, menaraRec2)]
      (detect_changes [(menaraId, menaraRec1)] []).database).changed_properties.length
      = 1 ∧
    ((lookupA (detect_changes [(menaraId, menaraRec2)]
        (detect_changes [(menaraId, menaraRec1)] []).database).changed_properties
        menaraId).map
      (fun ce => ce.changes.map (fun ch => (ch.field, ch.old_value, ch.new_value))))
      = some [("Auction Price", "RM204,000", "RM195,000")] ∧
    ((lookupA (detect_changes [(menaraId, menaraRec2)]
        (detect_changes [(menaraId, menaraRec1)] []).database).database menaraId).map
      (fun e => (e.price_history.getD []).length)) = some 2 ∧
    create_property_id menaraRec2.title menaraRec2.location menaraRec2.size = menaraId ∧
    generate_stable_key menaraRec2 = generate_stable_key menaraRec1 := by
  refine ⟨rfl, rfl, rfl, rfl, rfl, rfl, rfl, rfl, rfl, rfl⟩

/-! ## Claim C3: run-local hash vs stable key -/

/-- Lowercasing distributes over string append. -/
theorem pyLower_append (a b : String) : pyLower (a ++ b) = pyLower a ++ pyLower b := by
  unfold pyLower
  rw [String.data_append, List.map_append]
  rfl

/-- C3 (counterexample): two records that agree on title, location and size
and differ in the price string do not always get different run-local hashes —
`create_property_hash` lowercases its content, so prices differing only in
case collide. -/
theorem hash_lowercase_collision :
    create_property_hash "Menara UP Office Unit" "RM100,000" "15 Sep 2025 (Mon)"
        "Kuala Lumpur" "1,323 sq.ft"
      = create_property_hash "Menara UP Office Unit" "rm100,000" "15 Sep 2025 (Mon)"
        "Kuala Lumpur" "1,323 sq.ft" ∧
    ("RM100,000" : String) ≠ "rm100,000" := by
  exact ⟨rfl, by decide⟩

/-- C3 (amended): two records that agree on title, location and size and
whose lowercased price and auction-date content differs get different
run-local hashes, while their stable keys agree. -/
theorem hash_sensitivity_lowered (t l s p d p' d' : String)
    (h : pyLower (p ++ "_" ++ d) ≠ pyLower (p' ++ "_" ++ d')) :
    create_property_hash t p d l s ≠ create_property_hash t p' d' l s ∧
    (∀ r r' : Rec, r.title = t → r'.title = t → r.location = l → r'.location = l →
      r.size = s → r'.size = s → generate_stable_key r = generate_stable_key r') := by
  constructor
  · intro he
    apply h
    unfold create_property_hash at he
    have hd := congrArg String.data he
    simp only [pyLower, String.data_append, List.map_append, List.append_assoc] at hd
    have h1 := List.append_cancel_left (List.append_cancel_left hd)
    have h2 : (p.data.map pyCharLower ++ "_".data.map pyCharLower
          ++ d.data.map pyCharLower)
          ++ ("_".data.map pyCharLower ++ (l.data.map pyCharLower
            ++ ("_".data.map pyCharLower ++ s.data.map pyCharLower)))
        = (p'.data.map pyCharLower ++ "_".data.map pyCharLower
          ++ d'.data.map pyCharLower)
          ++ ("_".data.map pyCharLower ++ (l.data.map pyCharLower
            ++ ("_".data.map pyCharLower ++ s.data.map pyCharLower))) := by
      simpa [List.append_assoc] using h1
    have h3 := List.append_cancel_right h2
    unfold pyLower
    rw [String.data_append, String.data_append, String.data_append, String.data_append,
      List.map_append, List.map_append, List.map_append, List.map_append]
    exact congrArg String.mk h3
  · intro r r' ht ht' hl hl' hs hs'
    unfold generate_stable_key
    rw [ht, ht', hl, hl', hs, hs']

/-- Witness for C3's amended theorem at concrete records: prices RM204,000
and RM195,000 with the same date give different hashes, and two records with
those prices but the same identity fields share their stable key. -/
theorem hash_sensitivity_lowered_witness :
    create_property_hash "Menara UP Office Unit" "RM204,000" "15 Sep 2025 (Mon)"
        "Kuala Lumpur" "1,323 sq.ft"
      ≠ create_property_hash "Menara UP Office Unit" "RM195,000" "15 Sep 2025 (Mon)"
        "Kuala Lumpur" "1,323 sq.ft" ∧
    (∀ r r' : Rec, r.title = "Menara UP Office Unit" → r'.title = "Menara UP Office Unit" →
      r.location = "Kuala Lumpur" → r'.location = "Kuala Lumpur" →
      r.size = "1,323 sq.ft" → r'.size = "1,323 sq.ft" →
      generate_stable_key r = generate_stable_key r') :=
  hash_sensitivity_lowered "Menara UP Office Unit" "Kuala Lumpur" "1,323 sq.ft"
    "RM204,000" "15 Sep 2025 (Mon)" "RM195,000" "15 Sep 2025 (Mon)" (by decide)

/-! ## Claim C10: the shape of record-ids -/

/-- A non-whitespace member survives collapsing. -/
theorem mem_collapseRunsAux_of_mem {rep c : Char} (hc : isPySpace c = false) :
    ∀ {l : List Char} {b : Bool}, c ∈ l → c ∈ collapseRunsAux rep b l := by
  intro l
  induction l with
  | nil => intro b h; cases h
  | cons x xs ih =>
    intro b h
    by_cases hx : isPySpace x
    · rcases List.mem_cons.mp h with he | hm
      · subst he; rw [hc] at hx; cases hx
      · rw [collapseRunsAux, if_pos hx]
        by_cases hb : b = true
        · rw [if_pos hb]; exact ih hm
        · rw [if_neg hb]; exact List.mem_cons_of_mem _ (ih hm)
    · have hx' : isPySpace x = false := by simpa using hx
      rw [collapseRunsAux, if_neg hx]
      rcases List.mem_cons.mp h with he | hm
      · subst he; exact List.mem_cons_self _ _
      · exact List.mem_cons_of_mem _ (ih hm)

/-- C10 (counterexample): three fields with no word characters do not map to
the record-id "property" — the fallback is dead code, the slug is made of
underscores — and two such field triples need not share one record-id. -/
theorem create_property_id_fallback_dead :
    create_property_id "" "" "" = "__" ∧
    create_property_id "" " " "" = "___" ∧
    ("__" : String) ≠ "property" ∧
    ("__" : String) ≠ "___" := by
  exact ⟨rfl, rfl, by decide, by decide⟩


/-- C10 (amended): every record-id is a nonempty string of at most 100
characters with no whitespace and no ASCII uppercase; when the three fields
hold no word characters at all the id consists solely of underscores (the
"property" fallback is unreachable, since the two separator underscores keep
the slug nonempty — and no id ever equals "property"); and field triples
whose slugs agree on the first 100 characters share one record-id. -/
theorem create_property_id_shape (t lo si : String) :
    create_property_id t lo si ≠ "" ∧
    (create_property_id t lo si).length ≤ 100 ∧
    (∀ c ∈ (create_property_id t lo si).data,
      isPySpace c = false ∧ ¬ ('A' ≤ c ∧ c ≤ 'Z')) ∧
    ((∀ c ∈ t.data, isPyWord c = false) → (∀ c ∈ lo.data, isPyWord c = false) →
      (∀ c ∈ si.data, isPyWord c = false) →
      ∀ c ∈ (create_property_id t lo si).data, c = '_') ∧
    create_property_id t lo si ≠ "property" ∧
    (∀ t' lo' si' : String,
      ((collapseRuns '_' (pyStripList
          (stripPunct t ++ '_' :: stripPunct lo ++ '_' :: stripPunct si))).map
            pyCharLower).take 100
        = ((collapseRuns '_' (pyStripList
          (stripPunct t' ++ '_' :: stripPunct lo' ++ '_' :: stripPunct si'))).map
            pyCharLower).take 100 →
      create_property_id t lo si = create_property_id t' lo' si') := by
  have underscore_mem : ∀ (a b c : List Char), ('_' : Char) ∈ a ++ '_' :: b ++ '_' :: c := by
    intro a b c
    simp
  have base1_ne : ∀ (ta loa sia : String),
      (collapseRuns '_' (pyStripList
        (stripPunct ta ++ '_' :: stripPunct loa ++ '_' :: stripPunct sia))).map
          pyCharLower ≠ [] := by
    intro ta loa sia
    rw [Ne, List.map_eq_nil_iff]
    apply collapseRuns_ne_nil
    exact List.ne_nil_of_mem
      (mem_pyStripList_of_mem (by decide) (underscore_mem _ _ _))
  have id_eq : ∀ (ta loa sia : String), create_property_id ta loa sia
      = String.mk (((collapseRuns '_' (pyStripList
          (stripPunct ta ++ '_' :: stripPunct loa ++ '_' :: stripPunct sia))).map
            pyCharLower).take 100) := by
    intro ta loa sia
    simp only [create_property_id]
    rw [if_neg (base1_ne ta loa sia)]
  have b0_chars : ∀ (a : Char) (ta loa sia : String),
      a ∈ stripPunct ta ++ '_' :: stripPunct loa ++ '_' :: stripPunct sia →
      a = '_' ∨ ((a ∈ ta.data ∨ a ∈ loa.data ∨ a ∈ sia.data)
        ∧ (isPyWord a || isPySpace a) = true) := by
    intro a ta loa sia ha
    rcases List.mem_append.mp ha with h1 | h2
    · rcases List.mem_append.mp h1 with h3 | h4
      · rcases List.mem_filter.mp h3 with ⟨hm, hp⟩
        exact Or.inr ⟨Or.inl hm, hp⟩
      · rcases List.mem_cons.mp h4 with he | h5
        · exact Or.inl he
        · rcases List.mem_filter.mp h5 with ⟨hm, hp⟩
          exact Or.inr ⟨Or.inr (Or.inl hm), hp⟩
    · rcases List.mem_cons.mp h2 with he | h6
      · exact Or.inl he
      · rcases List.mem_filter.mp h6 with ⟨hm, hp⟩
        exact Or.inr ⟨Or.inr (Or.inr hm), hp⟩
  refine ⟨?_, ?_, ?_, ?_, ?_, ?_⟩
  · rw [id_eq]
    intro h
    have hd : (((collapseRuns '_' (pyStripList
        (stripPunct t ++ '_' :: stripPunct lo ++ '_' :: stripPunct si))).map
          pyCharLower).take 100) = [] := congrArg String.data h
    rcases List.take_eq_nil_iff.mp hd with h0 | hnil
    · cases h0
    · exact base1_ne t lo si hnil
  · rw [id_eq]
    show (((collapseRuns '_' _).map pyCharLower).take 100).length ≤ 100
    rw [List.length_take]
    exact min_le_left _ _
  · rw [id_eq]
    intro c hc
    have hc1 : c ∈ (collapseRuns '_' (pyStripList
        (stripPunct t ++ '_' :: stripPunct lo ++ '_' :: stripPunct si))).map
          pyCharLower := List.take_subset _ _ hc
    rcases List.mem_map.mp hc1 with ⟨a, ha, rfl⟩
    constructor
    · rcases mem_collapseRuns ha with he | ⟨_, hns⟩
      · subst he; decide
      · exact pyCharLower_not_space hns
    · exact pyCharLower_not_upper a
  · intro htw hlw hsw c hc
    rw [id_eq] at hc
    have hc1 : c ∈ (collapseRuns '_' (pyStripList
        (stripPunct t ++ '_' :: stripPunct lo ++ '_' :: stripPunct si))).map
          pyCharLower := List.take_subset _ _ hc
    rcases List.mem_map.mp hc1 with ⟨a, ha, rfl⟩
    have ha' : a = '_' := by
      rcases mem_collapseRuns ha with he | ⟨hmem, hns⟩
      · exact he
      · rcases b0_chars a t lo si (mem_of_mem_pyStripList hmem) with he | ⟨hsrc, hp⟩
        · exact he
        · rw [Bool.or_eq_true] at hp
          rcases hp with hw | hs
          · rcases hsrc with h1 | h1 | h1
            · rw [htw a h1] at hw; cases hw
            · rw [hlw a h1] at hw; cases hw
            · rw [hsw a h1] at hw; cases hw
          · rw [hs] at hns; cases hns
    subst ha'
    decide
  · rw [id_eq]
    intro h
    have hund : ('_' : Char) ∈ (collapseRuns '_' (pyStripList
        (stripPunct t ++ '_' :: stripPunct lo ++ '_' :: stripPunct si))).map
          pyCharLower := by
      apply List.mem_map.mpr
      refine ⟨'_', ?_, by decide⟩
      exact mem_collapseRunsAux_of_mem (by decide)
        (mem_pyStripList_of_mem (by decide) (underscore_mem _ _ _))
    have hd : (((collapseRuns '_' (pyStripList
        (stripPunct t ++ '_' :: stripPunct lo ++ '_' :: stripPunct si))).map
          pyCharLower).take 100) = "property".data := congrArg String.data h
    by_cases hlen : ((collapseRuns '_' (pyStripList
        (stripPunct t ++ '_' :: stripPunct lo ++ '_' :: stripPunct si))).map
          pyCharLower).length ≤ 100
    · rw [List.take_of_length_le hlen] at hd
      rw [hd] at hund
      simp at hund
    · have h100 : (((collapseRuns '_' (pyStripList
          (stripPunct t ++ '_' :: stripPunct lo ++ '_' :: stripPunct si))).map
            pyCharLower).take 100).length = 100 := by
        rw [List.length_take]
        omega
      rw [hd] at h100
      simp at h100
  · intro t' lo' si' h
    rw [id_eq, id_eq, h]

/-! ## Claim C7: price validation -/

/-- Evaluation of `validate_price` when the cleaned string does not parse:
the caught exception's `(False, 0)`. -/
theorem validate_price_parse_none (s : String)
    (h : parseDecimal (rmNonDigitDot s) = none) : validate_price s = (false, 0) := by
  unfold validate_price
  by_cases hc : rmNonDigitDot s = []
  · rw [if_pos hc]
  · rw [if_neg hc, h]

/-- Evaluation of `validate_price` when the cleaned string parses to `v`. -/
theorem validate_price_parse_some (s : String) (v : ℚ)
    (h : parseDecimal (rmNonDigitDot s) = some v) :
    validate_price s =
      if min_price ≤ (if v < 1000 then v * 1000 else v) ∧
          (if v < 1000 then v * 1000 else v) ≤ max_price
      then (true, ⌊if v < 1000 then v * 1000 else v⌋)
      else (false, ⌊if v < 1000 then v * 1000 else v⌋) := by
  have hc : rmNonDigitDot s ≠ [] := by
    intro hc
    rw [hc] at h
    simp [parseDecimal] at h
  unfold validate_price
  rw [if_neg hc, h]

/-- C7: `validate_price` strips every non-digit non-dot character, reads the
rest as a decimal number, promotes a value under 1000 by a factor of 1000,
accepts exactly the values within the configured bounds, and reports the
parsed (possibly out-of-range) value; an unparsable remainder yields
`(false, 0)`. At the claim's concrete points: RM49,999 is rejected with
value 49999, RM50,000 accepted with value 50000, RM350 promoted to 350000
and accepted. -/
theorem validate_price_characterization :
    (∀ s : String, (validate_price s).1 = true ↔
      ∃ v : ℚ, parseDecimal (rmNonDigitDot s) = some v ∧
        min_price ≤ (if v < 1000 then v * 1000 else v) ∧
        (if v < 1000 then v * 1000 else v) ≤ max_price) ∧
    (∀ (s : String) (v : ℚ), parseDecimal (rmNonDigitDot s) = some v →
      (validate_price s).2 = ⌊if v < 1000 then v * 1000 else v⌋) ∧
    (∀ s : String, parseDecimal (rmNonDigitDot s) = none →
      validate_price s = (false, 0)) ∧
    validate_price "RM49,999" = (false, 49999) ∧
    validate_price "RM50,000" = (true, 50000) ∧
    validate_price "RM350" = (true, 350000) := by
  have h49 : parseDecimal (rmNonDigitDot "RM49,999") = some ((49999 : ℕ) : ℚ) := rfl
  have h50 : parseDecimal (rmNonDigitDot "RM50,000") = some ((50000 : ℕ) : ℚ) := rfl
  have h350 : parseDecimal (rmNonDigitDot "RM350") = some ((350 : ℕ) : ℚ) := rfl
  refine ⟨?_, ?_, validate_price_parse_none, ?_, ?_, ?_⟩
  · intro s
    cases h : parseDecimal (rmNonDigitDot s) with
    | none =>
      rw [validate_price_parse_none s h]
      constructor
      · intro hfalse
        cases hfalse
      · rintro ⟨v, hv, -⟩
        cases hv
    | some v =>
      rw [validate_price_parse_some s v h]
      by_cases hr : min_price ≤ (if v < 1000 then v * 1000 else v) ∧
          (if v < 1000 then v * 1000 else v) ≤ max_price
      · rw [if_pos hr]
        constructor
        · intro _
          exact ⟨v, rfl, hr.1, hr.2⟩
        · intro _
          rfl
      · rw [if_neg hr]
        constructor
        · intro hfalse
          cases hfalse
        · rintro ⟨v', hv', h1, h2⟩
          injection hv' with hv'
          subst hv'
          exact absurd ⟨h1, h2⟩ hr
  · intro s v h
    rw [validate_price_parse_some s v h]
    by_cases hr : min_price ≤ (if v < 1000 then v * 1000 else v) ∧
        (if v < 1000 then v * 1000 else v) ≤ max_price
    · rw [if_pos hr]
    · rw [if_neg hr]
  · rw [validate_price_parse_some _ _ h49]
    norm_num [min_price, max_price]
  · rw [validate_price_parse_some _ _ h50]
    norm_num [min_price, max_price]
  · rw [validate_price_parse_some _ _ h350]
    norm_num [min_price, max_price]

/-! ## Claim C8: auction-date validation -/

/-- Characters with code point 33 or above are not Python whitespace. -/
theorem not_space_of_toNat {c : Char} (h : 33 ≤ c.toNat) : isPySpace c = false := by
  unfold isPySpace
  have ne : ∀ y : Char, y.toNat < 33 → (c = y) = False := by
    intro y hy
    simp only [eq_iff_iff, iff_false]
    intro e
    rw [e] at h
    omega
  simp [ne ' ' (by decide), ne '\t' (by decide), ne '\n' (by decide),
    ne '\r' (by decide), ne '\x0b' (by decide), ne '\x0c' (by decide)]

/-- A digit is not whitespace. -/
theorem digit_not_space {c : Char} (h : isPyDigit c = true) : isPySpace c = false := by
  simp only [isPyDigit, Bool.and_eq_true, decide_eq_true_eq] at h
  have h0 : ('0' : Char).toNat = 48 := by decide
  have h1 := (char_le_iff _ _).mp h.1
  exact not_space_of_toNat (by omega)

/-- Whitespace is not a digit. -/
theorem space_not_digit {c : Char} (h : isPySpace c = true) : isPyDigit c = false := by
  cases hd : isPyDigit c
  · rfl
  · rw [digit_not_space hd] at h
    cases h

/-- A word character is not whitespace. -/
theorem word_not_space {c : Char} (h : isPyWord c = true) : isPySpace c = false := by
  simp only [isPyWord, isPyDigit, Bool.or_eq_true, Bool.and_eq_true,
    decide_eq_true_eq] at h
  have ha : ('a' : Char).toNat = 97 := by decide
  have hA : ('A' : Char).toNat = 65 := by decide
  have h0 : ('0' : Char).toNat = 48 := by decide
  rcases h with ((⟨h1, -⟩ | ⟨h1, -⟩) | ⟨h1, -⟩) | h1
  · have := (char_le_iff _ _).mp h1
    exact not_space_of_toNat (by omega)
  · have := (char_le_iff _ _).mp h1
    exact not_space_of_toNat (by omega)
  · have := (char_le_iff _ _).mp h1
    exact not_space_of_toNat (by omega)
  · subst h1
    decide

/-- Splitting `takeWhile` and `dropWhile` at the first failing character. -/
theorem takeWhile_append_cons {p : Char → Bool} {a : List Char}
    (ha : ∀ c ∈ a, p c = true) {x : Char} (hx : p x = false) (xs : List Char) :
    (a ++ x :: xs).takeWhile p = a ∧ (a ++ x :: xs).dropWhile p = x :: xs := by
  induction a with
  | nil =>
    constructor
    · simp [List.takeWhile, hx]
    · simp [List.dropWhile, hx]
  | cons c cs ih =>
    have hc : p c = true := ha c (List.mem_cons_self _ _)
    have ih' := ih (fun c' hc' => ha c' (List.mem_cons_of_mem _ hc'))
    constructor
    · rw [List.cons_append]
      simp only [List.takeWhile, hc]
      rw [ih'.1]
    · rw [List.cons_append]
      simp only [List.dropWhile, hc]
      exact ih'.2

/-- The declarative reading of the date pattern matched as a prefix: one or
two digits, whitespace, three word characters, whitespace, four digits,
whitespace, a parenthesised three-word-character group, then arbitrary
trailing text. -/
def dateShapeDecomp (s : List Char) : Prop :=
  ∃ d ws1 m ws2 y ws3 w rest : List Char,
    s = d ++ (ws1 ++ (m ++ (ws2 ++ (y ++ (ws3 ++ ('(' :: (w ++ (')' :: rest)))))))) ∧
    (1 ≤ d.length ∧ d.length ≤ 2 ∧ ∀ c ∈ d, isPyDigit c = true) ∧
    (ws1 ≠ [] ∧ ∀ c ∈ ws1, isPySpace c = true) ∧
    (m.length = 3 ∧ ∀ c ∈ m, isPyWord c = true) ∧
    (ws2 ≠ [] ∧ ∀ c ∈ ws2, isPySpace c = true) ∧
    (y.length = 4 ∧ ∀ c ∈ y, isPyDigit c = true) ∧
    (ws3 ≠ [] ∧ ∀ c ∈ ws3, isPySpace c = true) ∧
    (w.length = 3 ∧ ∀ c ∈ w, isPyWord c = true)

/-- The prefix parser embedded from the code accepts exactly the lists whose
declarative decomposition exists. -/
theorem matchDateShape_iff (s : List Char) :
    matchDateShape s = true ↔ dateShapeDecomp s := by
  constructor
  · intro h
    simp only [matchDateShape, Bool.and_eq_true, decide_eq_true_eq,
      List.all_eq_true] at h
    obtain ⟨⟨⟨⟨⟨⟨⟨⟨⟨⟨hd1, hd2⟩, hws1⟩, hm3⟩, hmall⟩, hws2⟩, hy4⟩, hyall⟩, hws3⟩,
      hpar⟩, ⟨hw3, hwall⟩, hpar2⟩ := h
    refine ⟨s.takeWhile isPyDigit,
      (s.dropWhile isPyDigit).takeWhile isPySpace,
      ((s.dropWhile isPyDigit).dropWhile isPySpace).take 3,
      (((s.dropWhile isPyDigit).dropWhile isPySpace).drop 3).takeWhile isPySpace,
      ((((s.dropWhile isPyDigit).dropWhile isPySpace).drop 3).dropWhile isPySpace).take 4,
      (((((s.dropWhile isPyDigit).dropWhile isPySpace).drop 3).dropWhile isPySpace).drop 4).takeWhile
        isPySpace,
      ((((((((s.dropWhile isPyDigit).dropWhile isPySpace).drop 3).dropWhile
        isPySpace).drop 4).dropWhile isPySpace).drop 1).take 3),
      ((((((((s.dropWhile isPyDigit).dropWhile isPySpace).drop 3).dropWhile
        isPySpace).drop 4).dropWhile isPySpace).drop 1).drop 3).drop 1,
      ?_, ⟨hd1, hd2, fun c hc => List.mem_takeWhile_imp hc⟩,
      ⟨List.ne_nil_of_length_pos hws1, fun c hc => List.mem_takeWhile_imp hc⟩,
      ⟨hm3, hmall⟩,
      ⟨List.ne_nil_of_length_pos hws2, fun c hc => List.mem_takeWhile_imp hc⟩,
      ⟨hy4, hyall⟩,
      ⟨List.ne_nil_of_length_pos hws3, fun c hc => List.mem_takeWhile_imp hc⟩,
      ⟨hw3, hwall⟩⟩
    conv_lhs => rw [← List.takeWhile_append_dropWhile isPyDigit s]
    conv_lhs => rw [← List.takeWhile_append_dropWhile isPySpace (s.dropWhile isPyDigit)]
    conv_lhs => rw [← List.take_append_drop 3
      ((s.dropWhile isPyDigit).dropWhile isPySpace)]
    conv_lhs => rw [← List.takeWhile_append_dropWhile isPySpace
      (((s.dropWhile isPyDigit).dropWhile isPySpace).drop 3)]
    conv_lhs => rw [← List.take_append_drop 4
      ((((s.dropWhile isPyDigit).dropWhile isPySpace).drop 3).dropWhile isPySpace)]
    conv_lhs => rw [← List.takeWhile_append_dropWhile isPySpace
      (((((s.dropWhile isPyDigit).dropWhile isPySpace).drop 3).dropWhile
        isPySpace).drop 4)]
    conv_lhs => rw [← List.take_append_drop 1
      ((((((s.dropWhile isPyDigit).dropWhile isPySpace).drop 3).dropWhile
        isPySpace).drop 4).dropWhile isPySpace)]
    conv_lhs => rw [hpar]
    conv_lhs => rw [← List.take_append_drop 3
      (((((((s.dropWhile isPyDigit).dropWhile isPySpace).drop 3).dropWhile
        isPySpace).drop 4).dropWhile isPySpace).drop 1)]
    conv_lhs => rw [← List.take_append_drop 1
      ((((((((s.dropWhile isPyDigit).dropWhile isPySpace).drop 3).dropWhile
        isPySpace).drop 4).dropWhile isPySpace).drop 1).drop 3)]
    conv_lhs => rw [hpar2]
    rfl
  · rintro ⟨d, ws1, m, ws2, y, ws3, w, rest, hs,
      ⟨hd1, hd2, hdall⟩, ⟨hws1ne, hws1all⟩, ⟨hm3, hmall⟩, ⟨hws2ne, hws2all⟩,
      ⟨hy4, hyall⟩, ⟨hws3ne, hws3all⟩, ⟨hw3, hwall⟩⟩
    obtain ⟨c1, t1, rfl⟩ := List.exists_cons_of_ne_nil hws1ne
    obtain ⟨c2, t2, rfl⟩ := List.exists_cons_of_ne_nil hws2ne
    obtain ⟨c3, t3, rfl⟩ := List.exists_cons_of_ne_nil hws3ne
    obtain ⟨m1, mt, rfl⟩ := List.exists_cons_of_ne_nil
      (List.ne_nil_of_length_pos (by omega : 0 < m.length))
    obtain ⟨y1, yt, rfl⟩ := List.exists_cons_of_ne_nil
      (List.ne_nil_of_length_pos (by omega : 0 < y.length))
    subst hs
    have s1 := takeWhile_append_cons hdall
      (space_not_digit (hws1all c1 (List.mem_cons_self _ _)))
      (t1 ++ ((m1 :: mt) ++ ((c2 :: t2) ++ ((y1 :: yt) ++ ((c3 :: t3) ++
        ('(' :: (w ++ (')' :: rest))))))))
    have s2 := @takeWhile_append_cons isPySpace (c1 :: t1) hws1all _
      (word_not_space (hmall m1 (List.mem_cons_self _ _)))
      (mt ++ ((c2 :: t2) ++ ((y1 :: yt) ++ ((c3 :: t3) ++
        ('(' :: (w ++ (')' :: rest)))))))
    have s3t := @List.take_left' Char _ ((c2 :: t2) ++ ((y1 :: yt) ++ ((c3 :: t3) ++
      ('(' :: (w ++ (')' :: rest)))))) _ hm3
    have s3d := @List.drop_left' Char _ ((c2 :: t2) ++ ((y1 :: yt) ++ ((c3 :: t3) ++
      ('(' :: (w ++ (')' :: rest)))))) _ hm3
    have s4 := @takeWhile_append_cons isPySpace (c2 :: t2) hws2all _
      (digit_not_space (hyall y1 (List.mem_cons_self _ _)))
      (yt ++ ((c3 :: t3) ++ ('(' :: (w ++ (')' :: rest)))))
    have s5t := @List.take_left' Char _ ((c3 :: t3) ++ ('(' :: (w ++ (')' :: rest)))) _ hy4
    have s5d := @List.drop_left' Char _ ((c3 :: t3) ++ ('(' :: (w ++ (')' :: rest)))) _ hy4
    have s6 := @takeWhile_append_cons isPySpace (c3 :: t3) hws3all _
      (by decide : isPySpace '(' = false) (w ++ (')' :: rest))
    have s7t := @List.take_left' Char w (')' :: rest) _ hw3
    have s7d := @List.drop_left' Char w (')' :: rest) _ hw3
    simp only [List.cons_append] at s1 s2 s3t s3d s4 s5t s5d s6 s7t s7d ⊢
    simp only [matchDateShape, List.cons_append]
    rw [s1.1, s1.2, s2.1, s2.2, s3t, s3d, s4.1, s4.2, s5t, s5d, s6.1, s6.2]
    simp only [List.take, List.drop, s7t, s7d]
    simp only [Bool.and_eq_true, decide_eq_true_eq, List.all_eq_true]
    refine ⟨⟨⟨⟨⟨⟨⟨⟨⟨⟨?_, ?_⟩, ?_⟩, ?_⟩, ?_⟩, ?_⟩, ?_⟩, ?_⟩, ?_⟩, ?_⟩, ⟨?_, ?_⟩, ?_⟩
    · exact hd1
    · exact hd2
    · simp
    · simpa using hm3
    · intro x hx
      rcases List.mem_cons.mp hx with he | hx'
      · exact he ▸ hmall m1 (List.mem_cons_self _ _)
      · exact hmall x (List.mem_cons_of_mem _ hx')
    · simp
    · simpa using hy4
    · intro x hx
      rcases List.mem_cons.mp hx with he | hx'
      · exact he ▸ hyall y1 (List.mem_cons_self _ _)
      · exact hyall x (List.mem_cons_of_mem _ hx')
    · simp
    · trivial
    · simpa using hw3
    · exact hwall
    · trivial

/-- C8 (counterexample): `validate_auction_date` uses `re.match`, which only
anchors the start, so a 2025 date followed by trailing text is accepted even
though the input does not have the exact shape the claim requires. -/
theorem validate_auction_date_prefix_counterexample :
    validate_auction_date 2025 "15 Sep 2025 (Mon) and trailing text" = true ∧
    matchDateShapeExact "15 Sep 2025 (Mon) and trailing text".data = false := by
  exact ⟨rfl, rfl⟩

/-- C8 (amended): `validate_auction_date` returns true exactly when the
input BEGINS with the shape `\d{1,2}\s+\w{3}\s+\d{4}\s+\(\w{3}\)` (trailing
text is allowed, and the month and weekday positions admit any three word
characters) and the first run of four consecutive digits, read as the year,
equals the current year or the current year plus one; the claim's concrete
points behave as stated. -/
theorem validate_auction_date_characterization :
    (∀ (current_year : ℕ) (s : String),
      validate_auction_date current_year s = true ↔
        (dateShapeDecomp s.data ∧
          ∃ n, searchYear s.data = some n ∧
            current_year ≤ n ∧ n ≤ current_year + 1)) ∧
    validate_auction_date 2025 "15 Sep 2025 (Mon)" = true ∧
    validate_auction_date 2025 "15 Sep 2023 (Fri)" = false ∧
    validate_auction_date 2025 "15 September 2025" = false := by
  refine ⟨?_, rfl, rfl, rfl⟩
  intro cy s
  unfold validate_auction_date
  by_cases hm : matchDateShape s.data
  · rw [if_pos hm]
    cases hy : searchYear s.data with
    | none =>
      constructor
      · intro hfalse
        cases hfalse
      · rintro ⟨-, n, hn, -⟩
        cases hn
    | some n =>
      simp only [Bool.and_eq_true, decide_eq_true_eq]
      constructor
      · rintro ⟨h1, h2⟩
        exact ⟨(matchDateShape_iff _).mp hm, n, rfl, h1, h2⟩
      · rintro ⟨-, n', hn', h1, h2⟩
        injection hn' with hn'
        subst hn'
        exact ⟨h1, h2⟩
  · rw [if_neg hm]
    constructor
    · intro hfalse
      cases hfalse
    · rintro ⟨hdec, -⟩
      exact absurd (by rw [matchDateShape_iff]; exact hdec) hm

/-! ## Claim C9: the scrape loop's stop conditions -/

/-- C9 (counterexample): with the wall clock at 1300 seconds after page 1,
whose scrape raised, the loop still scrapes page 2 — the time budget is
checked only on the success path, so exceeding it during an erroring page
does not stop the loop — and no Time-limit stop is recorded. -/
theorem time_check_skipped_on_error_page :
    (scrape_all_pages (fun p => if p = 1 then .err 1300 else .ok 100) 2).pages
      = [1, 2] ∧
    (fun p => if p = 1 then (.err 1300 : PageOutcome) else .ok 100) 1 = .err 1300 ∧
    1200 < 1300 ∧
    (scrape_all_pages (fun p => if p = 1 then .err 1300 else .ok 100) 2).stopReason
      = none ∧
    (scrape_all_pages (fun p => if p = 1 then .err 1300 else .ok 100) 2).stoppedEarly
      = false := by
  exact ⟨rfl, rfl, by decide, rfl, rfl⟩

/-- Shape of a run: the pages entered form an initial segment, and the error
list records exactly the pages whose scrape raised. -/
theorem scrapeGo_shape (f : ℕ → PageOutcome) :
    ∀ (fuel start : ℕ) (st : ScrapeStats),
      ∃ k, k ≤ fuel ∧
        (scrapeGo f start fuel st).pages = st.pages ++ List.range' start k ∧
        (scrapeGo f start fuel st).errorPages
          = st.errorPages ++ (List.range' start k).filter (fun q => isErrPage (f q)) := by
  intro fuel
  induction fuel with
  | zero =>
    intro start st
    exact ⟨0, le_refl 0, by simp [scrapeGo], by simp [scrapeGo]⟩
  | succ n ih =>
    intro start st
    cases hf : f start with
    | ok e =>
      by_cases he : 1200 < e
      · simp only [scrapeGo, hf]
        rw [if_pos he]
        refine ⟨1, by omega, ?_, ?_⟩
        · simp [List.range'_succ]
        · simp [List.range'_succ, List.filter, hf, isErrPage]
      · simp only [scrapeGo, hf]
        rw [if_neg he]
        obtain ⟨k, hk, hp, herr⟩ := ih (start + 1)
          { st with pages := st.pages ++ [start] }
        refine ⟨k + 1, by omega, ?_, ?_⟩
        · rw [hp]
          simp [List.range'_succ]
        · rw [herr]
          simp only [List.range'_succ]
          rw [List.filter_cons]
          simp [hf, isErrPage]
    | err e =>
      by_cases hc : 10 < st.errorPages.length + 1
      · simp only [scrapeGo, hf]
        rw [if_pos (by simpa using hc)]
        refine ⟨1, by omega, ?_, ?_⟩
        · simp [List.range'_succ]
        · simp [List.range'_succ, List.filter, hf, isErrPage]
      · simp only [scrapeGo, hf]
        rw [if_neg (by simpa using hc)]
        obtain ⟨k, hk, hp, herr⟩ := ih (start + 1)
          { st with pages := st.pages ++ [start],
                    errorPages := st.errorPages ++ [start] }
        refine ⟨k + 1, by omega, ?_, ?_⟩
        · rw [hp]
          simp [List.range'_succ]
        · rw [herr]
          simp only [List.range'_succ]
          rw [List.filter_cons]
          simp [hf, isErrPage]

/-- Per-page stop behaviour of the loop, from a state that faithfully
records an unstopped run over pages 1..start-1. -/
theorem scrapeGo_stops (f : ℕ → PageOutcome) :
    ∀ (fuel start : ℕ) (st : ScrapeStats),
      st.pages = List.range' 1 (start - 1) →
      st.errorPages = (List.range' 1 (start - 1)).filter (fun q => isErrPage (f q)) →
      1 ≤ start →
      (∀ q ∈ st.pages, ¬ timeTrip f q ∧ ¬ errTrip f q) →
      ((∀ p ∈ (scrapeGo f start fuel st).pages, timeTrip f p →
          (scrapeGo f start fuel st).pages.getLast? = some p ∧
          (scrapeGo f start fuel st).stoppedEarly = true ∧
          (scrapeGo f start fuel st).stopReason = some "Time limit") ∧
       (∀ p ∈ (scrapeGo f start fuel st).pages, errTrip f p →
          (scrapeGo f start fuel st).pages.getLast? = some p ∧
          (scrapeGo f start fuel st).stoppedEarly = true ∧
          (scrapeGo f start fuel st).stopReason = some "Too many errors") ∧
       (∀ p ∈ (scrapeGo f start fuel st).pages, ¬ timeTrip f p → ¬ errTrip f p →
          p + 1 < start + fuel → (p + 1) ∈ (scrapeGo f start fuel st).pages)) := by
  intro fuel
  induction fuel with
  | zero =>
    intro start st hpages herr hstart hnot
    simp only [scrapeGo]
    refine ⟨?_, ?_, ?_⟩
    · intro p hp ht
      exact absurd ht (hnot p hp).1
    · intro p hp he
      exact absurd he (hnot p hp).2
    · intro p hp h1 h2 h3
      rw [hpages] at hp ⊢
      rw [List.mem_range'_1] at hp ⊢
      omega
  | succ n ih =>
    intro start st hpages herr hstart hnot
    have hrange : List.range' 1 (start - 1) ++ [start] = List.range' 1 start := by
      conv_rhs => rw [show start = (start - 1) + 1 from by omega]
      rw [List.range'_concat]
      rw [show 1 + 1 * (start - 1) = start from by omega]
    have hmem_start : ∀ p, p ∈ st.pages ++ [start] ↔ 1 ≤ p ∧ p ≤ start := by
      intro p
      rw [hpages, hrange, List.mem_range'_1]
      omega
    cases hf : f start with
    | ok e =>
      by_cases he : 1200 < e
      · simp only [scrapeGo, hf]
        rw [if_pos he]
        refine ⟨?_, ?_, ?_⟩
        · intro p hp ht
          rcases List.mem_append.mp hp with hold | hnew
          · exact absurd ht (hnot p hold).1
          · have hps : p = start := by simpa using hnew
            subst hps
            exact ⟨List.getLast?_concat _, rfl, rfl⟩
        · intro p hp herrp
          rcases List.mem_append.mp hp with hold | hnew
          · exact absurd herrp (hnot p hold).2
          · have hps : p = start := by simpa using hnew
            subst hps
            obtain ⟨⟨e', hfe⟩, -⟩ := herrp
            rw [hf] at hfe
            cases hfe
        · intro p hp h1 h2 h3
          rcases List.mem_append.mp hp with hold | hnew
          · rw [hpages, List.mem_range'_1] at hold
            rw [hmem_start]
            omega
          · have hps : p = start := by simpa using hnew
            subst hps
            exact absurd ⟨e, hf, he⟩ h1
      · simp only [scrapeGo, hf]
        rw [if_neg he]
        have hnot1 : ∀ q ∈ st.pages ++ [start], ¬ timeTrip f q ∧ ¬ errTrip f q := by
          intro q hq
          rcases List.mem_append.mp hq with hold | hnew
          · exact hnot q hold
          · have hqs : q = start := by simpa using hnew
            subst hqs
            constructor
            · rintro ⟨e', hfe, he'⟩
              rw [hf] at hfe
              injection hfe with hfe
              omega
            · rintro ⟨⟨e', hfe⟩, -⟩
              rw [hf] at hfe
              cases hfe
        have ihx := ih (start + 1) { st with pages := st.pages ++ [start] }
          (by simp only [Nat.add_sub_cancel]
              rw [hpages, hrange])
          (by simp only [Nat.add_sub_cancel]
              rw [herr, ← hrange, List.filter_append]
              simp [hf, isErrPage])
          (by omega)
          hnot1
        refine ⟨ihx.1, ihx.2.1, ?_⟩
        intro p hp h1 h2 h3
        exact ihx.2.2 p hp h1 h2 (by omega)
    | err e =>
      have hcount : countErr f start
          = ((List.range' 1 (start - 1)).filter (fun q => isErrPage (f q))).length + 1 := by
        unfold countErr
        rw [← hrange, List.filter_append]
        simp [hf, isErrPage]
      by_cases hc : 10 < st.errorPages.length + 1
      · simp only [scrapeGo, hf]
        rw [if_pos (by simpa using hc)]
        refine ⟨?_, ?_, ?_⟩
        · intro p hp ht
          rcases List.mem_append.mp hp with hold | hnew
          · exact absurd ht (hnot p hold).1
          · have hps : p = start := by simpa using hnew
            subst hps
            obtain ⟨e', hfe, -⟩ := ht
            rw [hf] at hfe
            cases hfe
        · intro p hp herrp
          rcases List.mem_append.mp hp with hold | hnew
          · exact absurd herrp (hnot p hold).2
          · have hps : p = start := by simpa using hnew
            subst hps
            exact ⟨List.getLast?_concat _, rfl, rfl⟩
        · intro p hp h1 h2 h3
          rcases List.mem_append.mp hp with hold | hnew
          · rw [hpages, List.mem_range'_1] at hold
            rw [hmem_start]
            omega
          · have hps : p = start := by simpa using hnew
            subst hps
            refine absurd ⟨⟨e, hf⟩, ?_⟩ h2
            rw [hcount]
            rw [herr] at hc
            omega
      · simp only [scrapeGo, hf]
        rw [if_neg (by simpa using hc)]
        have hnot2 : ∀ q ∈ st.pages ++ [start], ¬ timeTrip f q ∧ ¬ errTrip f q := by
          intro q hq
          rcases List.mem_append.mp hq with hold | hnew
          · exact hnot q hold
          · have hqs : q = start := by simpa using hnew
            subst hqs
            constructor
            · rintro ⟨e', hfe, -⟩
              rw [hf] at hfe
              cases hfe
            · rintro ⟨-, hcnt⟩
              rw [hcount] at hcnt
              rw [herr] at hc
              omega
        have ihx := ih (start + 1)
          { st with pages := st.pages ++ [start],
                    errorPages := st.errorPages ++ [start] }
          (by simp only [Nat.add_sub_cancel]
              rw [hpages, hrange])
          (by simp only [Nat.add_sub_cancel]
              rw [herr, ← hrange, List.filter_append]
              simp [hf, isErrPage])
          (by omega)
          hnot2
        refine ⟨ihx.1, ihx.2.1, ?_⟩
        intro p hp h1 h2 h3
        exact ihx.2.2 p hp h1 h2 (by omega)

/-- C9: the loop of scrape_all_pages visits an initial segment of the pages
1..N; the error list records exactly the pages whose scrape raised; a visited
page whose successful scrape finds elapsed time over 1200s is the last page
visited and sets stopped_early with reason "Time limit"; a visited page whose
scrape raised and brought the error count over 10 is the last page visited and
sets reason "Too many errors"; and after a visited page that trips neither
condition the next page (if any remain) is also visited — exceptions never
abort the loop by themselves, and no page is scraped after a stop fires. -/
theorem scrape_loop_stop_behaviour (f : ℕ → PageOutcome) (N : ℕ) :
    (∃ k, k ≤ N ∧ (scrape_all_pages f N).pages = List.range' 1 k) ∧
    (scrape_all_pages f N).errorPages
      = (scrape_all_pages f N).pages.filter (fun q => isErrPage (f q)) ∧
    (∀ p ∈ (scrape_all_pages f N).pages, timeTrip f p →
        (scrape_all_pages f N).pages.getLast? = some p ∧
        (scrape_all_pages f N).stoppedEarly = true ∧
        (scrape_all_pages f N).stopReason = some "Time limit") ∧
    (∀ p ∈ (scrape_all_pages f N).pages, errTrip f p →
        (scrape_all_pages f N).pages.getLast? = some p ∧
        (scrape_all_pages f N).stoppedEarly = true ∧
        (scrape_all_pages f N).stopReason = some "Too many errors") ∧
    (∀ p ∈ (scrape_all_pages f N).pages, ¬ timeTrip f p → ¬ errTrip f p →
        p < N → (p + 1) ∈ (scrape_all_pages f N).pages) := by
  obtain ⟨k, hk, hp, he⟩ := scrapeGo_shape f N 1 ⟨[], [], false, none⟩
  have hstops := scrapeGo_stops f N 1 ⟨[], [], false, none⟩
    (by simp) (by simp) (le_refl 1) (by intro q hq; simp at hq)
  simp only [scrape_all_pages]
  refine ⟨⟨k, hk, by simpa using hp⟩, ?_, hstops.1, hstops.2.1, ?_⟩
  · rw [hp, he]
    simp
  · intro p hps h1 h2 h3
    exact hstops.2.2 p hps h1 h2 (by omega)

/-! ## Claims C4/C5: the change detector's classification -/

/-- Reading an association list after a write. -/
theorem lookupA_setA {α : Type} (l : List (String × α)) (k : String) (v : α)
    (s : String) :
    lookupA (setA l k v) s = if k = s then some v else lookupA l s := by
  induction l with
  | nil =>
    simp [setA, lookupA]
  | cons hd tl ih =>
    by_cases h1 : hd.1 = k
    · by_cases h2 : k = s
      · simp [setA, h1, lookupA, h2]
      · have h3 : hd.1 = s ↔ False := by
          constructor
          · intro hx
            exact h2 (h1 ▸ hx)
          · intro hx
            cases hx
        simp [setA, h1, lookupA, h2, h3]
    · by_cases h2 : hd.1 = s
      · have h3 : k = s ↔ False := by
          constructor
          · intro hx
            exact h1 (by rw [h2, ← hx])
          · intro hx
            cases hx
        have h4 : s = k ↔ False := by
          constructor
          · intro hx
            exact h1 (h2.trans hx)
          · intro hx
            cases hx
        simp [setA, h1, lookupA, h2, h3, h4]
      · simp [setA, h1, lookupA, h2, ih]

/-- Key membership after a write. -/
theorem keyMem_setA {α : Type} (l : List (String × α)) (k : String) (v : α)
    (s : String) :
    keyMem (setA l k v) s = (decide (k = s) || keyMem l s) := by
  unfold keyMem
  rw [lookupA_setA]
  by_cases h : k = s <;> simp [h]

/-- Reading a concatenation of association lists. -/
theorem lookupA_append {α : Type} (l1 l2 : List (String × α)) (s : String) :
    lookupA (l1 ++ l2) s = ((lookupA l1 s).map some).getD (lookupA l2 s) := by
  induction l1 with
  | nil => simp [lookupA]
  | cons hd tl ih =>
    by_cases h : hd.1 = s
    · simp [lookupA, h]
    · simp [lookupA, h, ih]

/-- Key membership in a concatenation. -/
theorem keyMem_append {α : Type} (l1 l2 : List (String × α)) (s : String) :
    keyMem (l1 ++ l2) s = (keyMem l1 s || keyMem l2 s) := by
  unfold keyMem
  rw [lookupA_append]
  cases lookupA l1 s <;> simp

/-- A present key has a value. -/
theorem keyMem_exists {α : Type} {l : List (String × α)} {s : String}
    (h : keyMem l s = true) : ∃ v, lookupA l s = some v := by
  unfold keyMem at h
  exact Option.isSome_iff_exists.mp h

/-- The no-match branch of the detector's loop body. -/
theorem processOne_new (st : DetectState) (p : String × Rec)
    (hdb : keyMem st.db p.1 = false)
    (hidx : lookupA st.idx (skOf p.2) = none) :
    processOne st p =
      ⟨setA st.db p.1 (seedEntry (fillSk p.2) (skOf p.2)),
       setA st.idx (skOf p.2) p.1,
       setA st.news p.1 (fillSk p.2),
       st.changed,
       st.cur ++ [(p.1, fillSk p.2)]⟩ := by
  simp [processOne, hdb, hidx]

/-- The matched branch of the detector's loop body. -/
theorem processOne_hit (st : DetectState) (p : String × Rec) (eid : String)
    (e : Rec)
    (htgt : (if keyMem st.db p.1 then some p.1 else lookupA st.idx (skOf p.2))
      = some eid)
    (he : lookupA st.db eid = some e) :
    processOne st p =
      ⟨setA st.db eid (touchEntry e (fillSk p.2) (skOf p.2)),
       st.idx,
       st.news,
       if entryChanges e (fillSk p.2) ≠ [] then
         setA st.changed eid (changedOf e (fillSk p.2) (skOf p.2))
       else st.changed,
       st.cur ++ [(p.1, fillSk p.2)]⟩ := by
  simp only [processOne, htgt, he]

/-- The unreachable matched-but-absent branch of the loop body. -/
theorem processOne_miss (st : DetectState) (p : String × Rec) (eid : String)
    (htgt : (if keyMem st.db p.1 then some p.1 else lookupA st.idx (skOf p.2))
      = some eid)
    (he : lookupA st.db eid = none) :
    processOne st p = { st with cur := st.cur ++ [(p.1, fillSk p.2)] } := by
  simp only [processOne, htgt, he]

/-- Every record-id the stable index holds is a key of the rebuilt store. -/
theorem buildIndex_values_aux :
    ∀ (db : List (String × Rec)) (acc : List (String × Rec) × List (String × String)),
      (∀ s k, lookupA acc.2 s = some k → keyMem acc.1 k = true) →
      ∀ s k, lookupA (db.foldl buildIndexStep acc).2 s = some k →
        keyMem (db.foldl buildIndexStep acc).1 k = true := by
  intro db
  induction db with
  | nil =>
    intro acc h
    simpa using h
  | cons p rest ih =>
    intro acc h
    simp only [List.foldl_cons]
    apply ih
    intro s k hk
    simp only [buildIndexStep] at hk ⊢
    rw [keyMem_append]
    by_cases hcond : skOf p.2 ≠ "" ∧ ¬ keyMem acc.2 (skOf p.2)
    · rw [if_pos hcond] at hk
      rw [lookupA_setA] at hk
      by_cases hs : skOf p.2 = s
      · rw [if_pos hs] at hk
        injection hk with hk
        subst hk
        simp [keyMem, lookupA]
      · rw [if_neg hs] at hk
        rw [h s k hk]
        simp
    · rw [if_neg hcond] at hk
      rw [h s k hk]
      simp

/-- The detector's loop keeps the keys of `new_listings` and of
`changed_properties` apart, provided no remaining current id is already a
new-listing key, no remaining record's stable key resolves to one, the two
output maps are so far disjoint, and the index's values and the changed keys
all live in the store. -/
theorem detect_inv :
    ∀ (cs : List (String × Rec)) (st : DetectState),
      (cs.map Prod.fst).Nodup →
      (cs.map (fun p => skOf p.2)).Nodup →
      (∀ p ∈ cs, keyMem st.news p.1 = false) →
      (∀ p ∈ cs, ∀ k, lookupA st.idx (skOf p.2) = some k →
        keyMem st.news k = false) →
      (∀ k, keyMem st.changed k = true → keyMem st.news k = false) →
      (∀ s k, lookupA st.idx s = some k → keyMem st.db k = true) →
      (∀ k, keyMem st.changed k = true → keyMem st.db k = true) →
      ∀ k, keyMem (cs.foldl processOne st).changed k = true →
        keyMem (cs.foldl processOne st).news k = false := by
  intro cs
  induction cs with
  | nil =>
    intro st _ _ _ _ h3 _ _
    simpa using h3
  | cons p rest ih =>
    intro st hids hsks h1 h2 h3 h6 h7
    have hidstl : (rest.map Prod.fst).Nodup := (List.nodup_cons.mp hids).2
    have hskstl : (rest.map (fun q => skOf q.2)).Nodup := (List.nodup_cons.mp hsks).2
    simp only [List.foldl_cons]
    cases htgt : (if keyMem st.db p.1 then some p.1 else lookupA st.idx (skOf p.2)) with
    | none =>
      have hdmf : keyMem st.db p.1 = false := by
        cases hdm : keyMem st.db p.1
        · rfl
        · rw [hdm] at htgt
          simp at htgt
      have hidxn : lookupA st.idx (skOf p.2) = none := by
        rw [hdmf] at htgt
        simpa using htgt
      rw [processOne_new st p hdmf hidxn]
      apply ih _ hidstl hskstl
      · intro q hq
        rw [keyMem_setA]
        have hne : p.1 ≠ q.1 := by
          intro hx
          exact (List.nodup_cons.mp hids).1 (hx ▸ List.mem_map_of_mem Prod.fst hq)
        rw [h1 q (List.mem_cons_of_mem p hq)]
        simp [hne]
      · intro q hq k hk
        rw [lookupA_setA] at hk
        have hskne : skOf p.2 ≠ skOf q.2 := by
          intro hx
          have hmem : skOf q.2 ∈ rest.map (fun r => skOf r.2) :=
            List.mem_map_of_mem (fun r => skOf r.2) hq
          rw [← hx] at hmem
          exact (List.nodup_cons.mp hsks).1 hmem
        rw [if_neg hskne] at hk
        have hkdb := h6 _ _ hk
        have hkne : p.1 ≠ k := by
          intro hx
          rw [← hx] at hkdb
          rw [hkdb] at hdmf
          cases hdmf
        rw [keyMem_setA, h2 q (List.mem_cons_of_mem p hq) k hk]
        simp [hkne]
      · intro k hk
        have hkdb := h7 k hk
        have hkne : p.1 ≠ k := by
          intro hx
          rw [← hx] at hkdb
          rw [hkdb] at hdmf
          cases hdmf
        rw [keyMem_setA, h3 k hk]
        simp [hkne]
      · intro s k hk
        rw [lookupA_setA] at hk
        rw [keyMem_setA]
        by_cases hs : skOf p.2 = s
        · rw [if_pos hs] at hk
          injection hk with hk
          subst hk
          simp
        · rw [if_neg hs] at hk
          rw [h6 s k hk]
          simp
      · intro k hk
        rw [keyMem_setA, h7 k hk]
        simp
    | some eid =>
      have heidnews : keyMem st.news eid = false := by
        cases hdm : keyMem st.db p.1
        · rw [hdm] at htgt
          simp only [Bool.false_eq_true, if_false] at htgt
          exact h2 p (List.mem_cons_self p rest) eid htgt
        · rw [hdm] at htgt
          simp only [if_true] at htgt
          injection htgt with htgt
          subst htgt
          exact h1 p (List.mem_cons_self p rest)
      cases he : lookupA st.db eid with
      | none =>
        rw [processOne_miss st p eid htgt he]
        exact ih _ hidstl hskstl
          (fun q hq => h1 q (List.mem_cons_of_mem p hq))
          (fun q hq k hk => h2 q (List.mem_cons_of_mem p hq) k hk)
          h3 h6 h7
      | some e =>
        rw [processOne_hit st p eid e htgt he]
        apply ih _ hidstl hskstl
        · intro q hq
          exact h1 q (List.mem_cons_of_mem p hq)
        · intro q hq k hk
          exact h2 q (List.mem_cons_of_mem p hq) k hk
        · intro k hk
          by_cases hch : entryChanges e (fillSk p.2) ≠ []
          · rw [if_pos hch, keyMem_setA] at hk
            rcases Bool.or_eq_true_iff.mp hk with hk | hk
            · have : eid = k := by simpa using hk
              exact this ▸ heidnews
            · exact h3 k hk
          · rw [if_neg hch] at hk
            exact h3 k hk
        · intro s k hk
          rw [keyMem_setA, h6 s k hk]
          simp
        · intro k hk
          rw [keyMem_setA]
          by_cases hch : entryChanges e (fillSk p.2) ≠ []
          · rw [if_pos hch, keyMem_setA] at hk
            rcases Bool.or_eq_true_iff.mp hk with hk | hk
            · simp [hk]
            · rw [h7 k hk]
              simp
          · rw [if_neg hch] at hk
            rw [h7 k hk]
            simp

/-- C5 (counterexample): two sightings of one property under different
record-ids but the same stable key, against an empty store: the first is
filed as a new listing, the second matches it through the stable index and
its price difference files the SAME record-id as a changed property — the id
appears in both new_listings and changed_properties of one run. -/
theorem new_and_changed_overlap_on_shared_stable_key :
    sharedSkIdA ≠ sharedSkIdB ∧
    keyMem (detect_changes sharedSkCurrent []).new_listings sharedSkIdA = true ∧
    keyMem (detect_changes sharedSkCurrent []).changed_properties sharedSkIdA
      = true := by
  refine ⟨by decide, rfl, rfl⟩

/-- C5 (amended): when the current snapshot's record-ids are pairwise
distinct and its records' stable keys are pairwise distinct, every
record-id lands in at most one of new_listings and changed_properties, so
each current record is classified as new, changed, or neither — never new
and changed at once. Without the distinct-stable-keys proviso the claim
fails, as two current records sharing a stable key route the second one's
match onto the first one's freshly filed id. -/
theorem new_changed_key_disjointness (current db0 : List (String × Rec))
    (hids : (current.map Prod.fst).Nodup)
    (hsks : (current.map (fun p => skOf p.2)).Nodup) :
    ∀ k, keyMem (detect_changes current db0).changed_properties k = true →
      keyMem (detect_changes current db0).new_listings k = false := by
  have hbi : ∀ s k, lookupA (buildIndex db0).2 s = some k →
      keyMem (buildIndex db0).1 k = true := by
    apply buildIndex_values_aux db0 ([], [])
    intro s k hk
    cases hk
  show ∀ k,
    keyMem (current.foldl processOne
      ⟨(buildIndex db0).1, (buildIndex db0).2, [], [], []⟩).changed k = true →
    keyMem (current.foldl processOne
      ⟨(buildIndex db0).1, (buildIndex db0).2, [], [], []⟩).news k = false
  apply detect_inv current _ hids hsks
  · intro q hq
    rfl
  · intro q hq k hk
    rfl
  · intro k hk
    cases hk
  · intro s k hk
    exact hbi s k hk
  · intro k hk
    cases hk

/-- The disjointness theorem at the end-to-end scenario's single record
against an empty store. -/
theorem new_changed_key_disjointness_witness :
    (([(menaraId, menaraRec1)].map Prod.fst).Nodup ∧
     ([(menaraId, menaraRec1)].map (fun p => skOf p.2)).Nodup) ∧
    (∀ k, keyMem (detect_changes [(menaraId, menaraRec1)] []).changed_properties k
        = true →
      keyMem (detect_changes [(menaraId, menaraRec1)] []).new_listings k
        = false) :=
  ⟨⟨List.nodup_singleton _, List.nodup_singleton _⟩,
   new_changed_key_disjointness [(menaraId, menaraRec1)] []
     (List.nodup_singleton _) (List.nodup_singleton _)⟩

/-- A generated stable key is never the empty string: the two `|` separators
are always present. -/
theorem generate_stable_key_ne_empty (e : Rec) : generate_stable_key e ≠ "" := by
  intro h
  have hl := congrArg String.length h
  have h1 : String.length "|" = 1 := rfl
  have h2 : String.length "" = 0 := rfl
  simp only [generate_stable_key, String.length_append, h1, h2] at hl
  omega

/-- The key the detector works with is never empty. -/
theorem skOf_ne_empty (e : Rec) : skOf e ≠ "" := by
  unfold skOf
  by_cases h : skRaw e = ""
  · rw [if_pos h]
    exact generate_stable_key_ne_empty e
  · rw [if_neg h]
    exact h

/-- After the in-place fill, the stored key is the working key. -/
theorem skRaw_fillSk (e : Rec) : skRaw (fillSk e) = skOf e := by
  unfold fillSk skOf
  by_cases h : skRaw e = ""
  · rw [if_pos h, if_pos h]
    rfl
  · rw [if_neg h, if_neg h]

/-- Filling the stored key does not change the working key. -/
theorem skOf_fillSk (e : Rec) : skOf (fillSk e) = skOf e := by
  rw [skOf, skRaw_fillSk, if_neg (skOf_ne_empty e)]

/-- A record whose stored key is truthy is left alone by the fill. -/
theorem fillSk_of_skRaw_ne {e : Rec} (h : skRaw e ≠ "") : fillSk e = e := by
  unfold fillSk
  rw [if_neg h]

/-- The in-place fill is idempotent. -/
theorem fillSk_fillSk (e : Rec) : fillSk (fillSk e) = fillSk e := by
  apply fillSk_of_skRaw_ne
  rw [skRaw_fillSk]
  exact skOf_ne_empty e

/-- The fill touches only the stored stable key. -/
theorem fillSk_price (e : Rec) : (fillSk e).price = e.price := by
  unfold fillSk
  split <;> rfl

/-- The fill touches only the stored stable key. -/
theorem fillSk_auction_date (e : Rec) : (fillSk e).auction_date = e.auction_date := by
  unfold fillSk
  split <;> rfl

/-- A fresh entry carries the current record's price. -/
theorem seedEntry_price (c : Rec) (sk : String) :
    (seedEntry c sk).price = c.price := rfl

/-- A fresh entry carries the current record's auction date. -/
theorem seedEntry_auction_date (c : Rec) (sk : String) :
    (seedEntry c sk).auction_date = c.auction_date := rfl

/-- A fresh entry's stored key is the key it was filed under. -/
theorem skRaw_seedEntry (c : Rec) (sk : String) :
    skRaw (seedEntry c sk) = sk := rfl

/-- A touched entry ends with the current record's price. -/
theorem touchEntry_price (e c : Rec) (sk : String) :
    (touchEntry e c sk).price = c.price := rfl

/-- A touched entry ends with the current record's auction date. -/
theorem touchEntry_auction_date (e c : Rec) (sk : String) :
    (touchEntry e c sk).auction_date = c.auction_date := rfl

/-- A touched entry's stored key is the matching record's key. -/
theorem skRaw_touchEntry (e c : Rec) (sk : String) :
    skRaw (touchEntry e c sk) = sk := rfl

/-- The working key of a touched entry. -/
theorem skOf_touchEntry (e c : Rec) {sk : String} (h : sk ≠ "") :
    skOf (touchEntry e c sk) = sk := by
  rw [skOf, skRaw_touchEntry, if_neg h]

/-- The working key of a fresh entry. -/
theorem skOf_seedEntry (c : Rec) {sk : String} (h : sk ≠ "") :
    skOf (seedEntry c sk) = sk := by
  rw [skOf, skRaw_seedEntry, if_neg h]

/-- Reading an association list is a first-match search. -/
theorem lookupA_find? {α : Type} (l : List (String × α)) (k : String) :
    lookupA l k = (l.find? (fun q => decide (q.1 = k))).map Prod.snd := by
  induction l with
  | nil => rfl
  | cons hd tl ih =>
    by_cases h : hd.1 = k
    · simp [lookupA, h, List.find?_cons]
    · simp [lookupA, h, List.find?_cons, ih]

/-- Reading a key-preserving remap of an association list. -/
theorem lookupA_map {α β : Type} (l : List (String × α)) (g : String × α → β)
    (k : String) :
    lookupA (l.map fun q => (q.1, g q)) k
      = (l.find? (fun q => decide (q.1 = k))).map g := by
  induction l with
  | nil => rfl
  | cons hd tl ih =>
    by_cases h : hd.1 = k
    · simp [lookupA, h, List.find?_cons]
    · simp [lookupA, h, List.find?_cons, ih]

/-- Key membership is stable under a key-preserving remap. -/
theorem keyMem_map {α β : Type} (l : List (String × α)) (g : String × α → β)
    (k : String) :
    keyMem (l.map fun q => (q.1, g q)) k = keyMem l k := by
  unfold keyMem
  rw [lookupA_map, lookupA_find?, Option.isSome_map', Option.isSome_map']

/-- A key none of the bindings carries is absent. -/
theorem lookupA_eq_none_of {α : Type} {l : List (String × α)} {k : String}
    (h : ∀ q ∈ l, q.1 ≠ k) : lookupA l k = none := by
  induction l with
  | nil => rfl
  | cons hd tl ih =>
    simp only [lookupA, if_neg (h hd (List.mem_cons_self hd tl))]
    exact ih (fun q hq => h q (List.mem_cons_of_mem hd hq))

/-- An absent key reads as `none`. -/
theorem lookupA_of_keyMem_false {α : Type} {l : List (String × α)} {k : String}
    (h : keyMem l k = false) : lookupA l k = none := by
  cases hll : lookupA l k with
  | none => rfl
  | some v =>
    rw [keyMem, hll] at h
    cases h

/-- Writing an absent key appends the binding. -/
theorem setA_absent {α : Type} {l : List (String × α)} {k : String} (v : α)
    (h : keyMem l k = false) : setA l k v = l ++ [(k, v)] := by
  induction l with
  | nil => rfl
  | cons hd tl ih =>
    have hne : ¬ hd.1 = k := by
      intro hx
      simp [keyMem, lookupA, hx] at h
    have htl : keyMem tl k = false := by
      simpa [keyMem, lookupA, hne] using h
    simp [setA, hne, ih htl]

/-- Writing a key the left part carries stays inside the left part. -/
theorem setA_append_left {α : Type} {l1 l2 : List (String × α)} {k : String}
    (v : α) (h : keyMem l1 k = true) :
    setA (l1 ++ l2) k v = setA l1 k v ++ l2 := by
  induction l1 with
  | nil => simp [keyMem, lookupA] at h
  | cons hd tl ih =>
    by_cases hne : hd.1 = k
    · simp [setA, hne]
    · have htl : keyMem tl k = true := by
        simpa [keyMem, lookupA, hne] using h
      simp [setA, hne, ih htl]

/-- Writing an id a key-distinct remapped list carries rewrites that entry in
place. -/
theorem setA_map_nodup {α β : Type} {l : List (String × α)} (g : String × α → β)
    {k : String} (v : β)
    (hpw : l.Pairwise (fun a b => a.1 ≠ b.1)) (h : keyMem l k = true) :
    setA (l.map fun q => (q.1, g q)) k v
      = l.map (fun q => (q.1, if q.1 = k then v else g q)) := by
  induction l with
  | nil => simp [keyMem, lookupA] at h
  | cons hd tl ih =>
    by_cases hne : hd.1 = k
    · subst hne
      have htl : ∀ q ∈ tl, (q.1, if q.1 = hd.1 then v else g q) = (q.1, g q) := by
        intro q hq
        have hd1 : hd.1 ≠ q.1 := (List.pairwise_cons.mp hpw).1 q hq
        rw [if_neg (fun hx => hd1 hx.symm)]
      rw [List.map_cons, List.map_cons, List.map_congr_left htl]
      simp [setA]
    · have htl : keyMem tl k = true := by
        simpa [keyMem, lookupA, hne] using h
      rw [List.map_cons, List.map_cons]
      simp only [setA, if_neg hne]
      rw [ih (List.Pairwise.of_cons hpw) htl]

/-- Decomposition of a list at its first match. -/
theorem find?_decomp {α : Type} {l : List α} {pred : α → Bool} {r : α}
    (h : l.find? pred = some r) :
    ∃ l1 l2, l = l1 ++ r :: l2 ∧ ∀ x ∈ l1, pred x = false := by
  induction l with
  | nil => cases h
  | cons hd tl ih =>
    cases hp : pred hd with
    | true =>
      simp only [List.find?_cons, hp] at h
      injection h with h
      exact ⟨[], tl, by rw [h]; rfl, by intro x hx; cases hx⟩
    | false =>
      simp only [List.find?_cons, hp] at h
      obtain ⟨l1, l2, heq, hall⟩ := ih h
      refine ⟨hd :: l1, l2, by rw [heq]; rfl, ?_⟩
      intro x hx
      rcases List.mem_cons.mp hx with hx | hx
      · rw [hx]
        exact hp
      · exact hall x hx

/-- The first match, read off a decomposition. -/
theorem find?_of_decomp {α : Type} {l1 l2 : List α} {pred : α → Bool} {r : α}
    (hall : ∀ x ∈ l1, pred x = false) (hr : pred r = true) :
    (l1 ++ r :: l2).find? pred = some r := by
  induction l1 with
  | nil => simp [List.find?_cons, hr]
  | cons hd tl ih =>
    have h0 : pred hd = false := hall hd (List.mem_cons_self hd tl)
    simp only [List.cons_append, List.find?_cons, h0]
    exact ih (fun x hx => hall x (List.mem_cons_of_mem hd hx))

/-- With at most one satisfier, the first match is any satisfying member. -/
theorem find_of_pairwise {α : Type} {pred : α → Bool} :
    ∀ (l : List α), l.Pairwise (fun a b => pred a = true → pred b = false) →
      ∀ p ∈ l, pred p = true → l.find? pred = some p := by
  intro l
  induction l with
  | nil =>
    intro _ p hp
    cases hp
  | cons hd tl ih =>
    intro hpw p hmem hp
    cases hph : pred hd with
    | true =>
      have hphd : p = hd := by
        rcases List.mem_cons.mp hmem with h | h
        · exact h
        · have := (List.pairwise_cons.mp hpw).1 p h hph
          rw [hp] at this
          cases this
      simp [List.find?_cons, hph, hphd]
    | false =>
      have hmem' : p ∈ tl := by
        rcases List.mem_cons.mp hmem with h | h
        · rw [h] at hp
          rw [hp] at hph
          cases hph
        · exact h
      simp only [List.find?_cons, hph]
      exact ih (List.Pairwise.of_cons hpw) p hmem' hp

/-- With at most one satisfier, satisfying members coincide. -/
theorem pairwise_pred_unique {α : Type} {pred : α → Bool} {l : List α}
    (hpw : l.Pairwise (fun a b => pred a = true → pred b = false))
    {p p' : α} (hp : p ∈ l) (hp' : p' ∈ l) (h1 : pred p = true)
    (h2 : pred p' = true) : p = p' := by
  have e1 := find_of_pairwise l hpw p hp h1
  have e2 := find_of_pairwise l hpw p' hp' h2
  rw [e1] at e2
  injection e2

/-- The index-building pass rewrites the store to its stable-key-filled
form, in order. -/
theorem buildIndex_fst_aux :
    ∀ (db : List (String × Rec)) (acc : List (String × Rec) × List (String × String)),
      (db.foldl buildIndexStep acc).1
        = acc.1 ++ db.map (fun q => (q.1, fillSk q.2)) := by
  intro db
  induction db with
  | nil =>
    intro acc
    simp
  | cons p rest ih =>
    intro acc
    simp only [List.foldl_cons, List.map_cons]
    rw [ih]
    simp [buildIndexStep]

/-- The store after the index-building pass. -/
theorem buildIndex_fst (db : List (String × Rec)) :
    (buildIndex db).1 = db.map (fun q => (q.1, fillSk q.2)) := by
  unfold buildIndex
  rw [buildIndex_fst_aux]
  rfl

/-- Reading the rebuilt store. -/
theorem lookupA_buildIndex_fst (db : List (String × Rec)) (k : String) :
    lookupA (buildIndex db).1 k = (lookupA db k).map fillSk := by
  rw [buildIndex_fst, lookupA_map db (fun q => fillSk q.2) k, lookupA_find?,
    Option.map_map]
  rfl

/-- The index-building pass keeps the store's keys. -/
theorem keyMem_buildIndex_fst (db : List (String × Rec)) (k : String) :
    keyMem (buildIndex db).1 k = keyMem db k := by
  unfold keyMem
  rw [lookupA_buildIndex_fst, Option.isSome_map']

/-- The stable index maps a nonempty key to the first store id whose working
key it is, seen through any accumulator. -/
theorem buildIndex_idx_aux :
    ∀ (db : List (String × Rec)) (acc : List (String × Rec) × List (String × String))
      (s : String), s ≠ "" →
      lookupA (db.foldl buildIndexStep acc).2 s
        = ((lookupA acc.2 s).map some).getD
            ((db.find? (fun q => decide (skOf q.2 = s))).map Prod.fst) := by
  intro db
  induction db with
  | nil =>
    intro acc s _
    cases h : lookupA acc.2 s <;> simp [h]
  | cons q rest ih =>
    intro acc s hs
    simp only [List.foldl_cons]
    rw [ih _ s hs]
    by_cases hsk : skOf q.2 = s
    · have hcond : skOf q.2 ≠ "" := by
        rw [hsk]
        exact hs
      by_cases hk : keyMem acc.2 (skOf q.2) = true
      · have hcond2 : ¬ (skOf q.2 ≠ "" ∧ ¬ keyMem acc.2 (skOf q.2)) := by
          rintro ⟨-, hno⟩
          exact hno hk
        simp only [buildIndexStep, if_neg hcond2]
        have hk' : keyMem acc.2 s = true := by
          rw [← hsk]
          exact hk
        obtain ⟨v, hv⟩ := keyMem_exists hk'
        rw [hv]
        simp [List.find?_cons, hsk]
      · have hcond2 : skOf q.2 ≠ "" ∧ ¬ keyMem acc.2 (skOf q.2) := ⟨hcond, hk⟩
        simp only [buildIndexStep, if_pos hcond2]
        rw [lookupA_setA, if_pos hsk]
        have hkf : keyMem acc.2 s = false := by
          rw [← hsk]
          cases hkk : keyMem acc.2 (skOf q.2)
          · rfl
          · exact absurd hkk hk
        rw [lookupA_of_keyMem_false hkf]
        simp [List.find?_cons, hsk]
    · have hlk : lookupA (buildIndexStep acc q).2 s = lookupA acc.2 s := by
        simp only [buildIndexStep]
        split
        · rw [lookupA_setA, if_neg hsk]
        · rfl
      rw [hlk]
      simp [List.find?_cons, hsk]

/-- The stable index as a first-match search over the store. -/
theorem buildIndex_idx (db : List (String × Rec)) (s : String) (hs : s ≠ "") :
    lookupA (buildIndex db).2 s
      = (db.find? (fun q => decide (skOf q.2 = s))).map Prod.fst := by
  unfold buildIndex
  rw [buildIndex_idx_aux db ([], []) s hs]
  rfl

/-- A matched target names a key of the store. -/
theorem target0_some_keyMem {db : List (String × Rec)} {p : String × Rec}
    {k : String} (h : target0 db p = some k) : keyMem db k = true := by
  unfold target0 at h
  by_cases hm : keyMem db p.1 = true
  · rw [if_pos hm] at h
    injection h with h
    rw [← h]
    exact hm
  · rw [if_neg hm] at h
    have hv := buildIndex_values_aux db ([], []) (by intro s k hk; cases hk)
      (skOf p.2) k h
    rw [← keyMem_buildIndex_fst]
    exact hv

/-- With pairwise-distinct keys, a member is read back exactly. -/
theorem lookupA_mem_nodup {α : Type} {l : List (String × α)}
    (hpw : l.Pairwise (fun a b => a.1 ≠ b.1)) {q : String × α} (hq : q ∈ l) :
    lookupA l q.1 = some q.2 := by
  induction l with
  | nil => cases hq
  | cons hd tl ih =>
    rcases List.mem_cons.mp hq with h | h
    · subst h
      simp [lookupA]
    · have hne : hd.1 ≠ q.1 := (List.pairwise_cons.mp hpw).1 q h
      simp only [lookupA, if_neg hne]
      exact ih (List.Pairwise.of_cons hpw) h

/-- A record the appended current record does not match leaves an entry's
final value unchanged. -/
theorem updEntry_append_none (done : List (String × Rec)) (p : String × Rec)
    (db0 : List (String × Rec)) (q : String × Rec)
    (h : decide (target0 db0 p = some q.1) = false) :
    updEntry (done ++ [p]) db0 q = updEntry done db0 q := by
  unfold updEntry
  rw [List.find?_append]
  have h0 : List.find? (fun r => decide (target0 db0 r = some q.1)) [p] = none := by
    simp only [List.find?_cons, h]
    rfl
  rw [h0, Option.or_none]

/-- The appended current record, matching an entry no earlier record
matched, decides the entry's final value. -/
theorem updEntry_append_some (done : List (String × Rec)) (p : String × Rec)
    (db0 : List (String × Rec)) (q : String × Rec)
    (hnone : done.find? (fun r => decide (target0 db0 r = some q.1)) = none)
    (h : decide (target0 db0 p = some q.1) = true) :
    updEntry (done ++ [p]) db0 q = touchEntry q.2 (fillSk p.2) (skOf p.2) := by
  unfold updEntry
  rw [List.find?_append, hnone]
  simp [List.find?_cons, h]

/-- A new appended record extends the seeded entries. -/
theorem seedsOf_append_none (done : List (String × Rec)) (p : String × Rec)
    (db0 : List (String × Rec)) (h : decide (target0 db0 p = none) = true) :
    seedsOf (done ++ [p]) db0
      = seedsOf done db0 ++ [(p.1, seedEntry (fillSk p.2) (skOf p.2))] := by
  unfold seedsOf
  rw [List.filter_append, List.map_append]
  simp [List.filter_cons, h]

/-- A matched appended record seeds nothing. -/
theorem seedsOf_append_some (done : List (String × Rec)) (p : String × Rec)
    (db0 : List (String × Rec)) (h : decide (target0 db0 p = none) = false) :
    seedsOf (done ++ [p]) db0 = seedsOf done db0 := by
  unfold seedsOf
  rw [List.filter_append]
  simp [List.filter_cons, h]

/-- A new appended record extends the index bindings. -/
theorem newBindings_append_none (done : List (String × Rec)) (p : String × Rec)
    (db0 : List (String × Rec)) (h : decide (target0 db0 p = none) = true) :
    newBindings (done ++ [p]) db0
      = newBindings done db0 ++ [(skOf p.2, p.1)] := by
  unfold newBindings
  rw [List.filter_append, List.map_append]
  simp [List.filter_cons, h]

/-- A matched appended record binds nothing. -/
theorem newBindings_append_some (done : List (String × Rec)) (p : String × Rec)
    (db0 : List (String × Rec)) (h : decide (target0 db0 p = none) = false) :
    newBindings (done ++ [p]) db0 = newBindings done db0 := by
  unfold newBindings
  rw [List.filter_append]
  simp [List.filter_cons, h]

/-- One run of the detector's loop, characterized: over pairwise-distinct
ids, stable keys and match targets, the loop leaves the store as `run1Db`
and the current records stable-key filled. -/
theorem run1_inv (db0 : List (String × Rec))
    (hdb0 : db0.Pairwise (fun a b => a.1 ≠ b.1)) :
    ∀ (todo done : List (String × Rec)) (st : DetectState),
      (done ++ todo).Pairwise (fun a b => a.1 ≠ b.1) →
      (done ++ todo).Pairwise (fun a b => skOf a.2 ≠ skOf b.2) →
      (done ++ todo).Pairwise
        (fun a b => ∀ k, target0 db0 a = some k → target0 db0 b ≠ some k) →
      st.db = (buildIndex db0).1.map (fun q => (q.1, updEntry done db0 q))
        ++ seedsOf done db0 →
      st.idx = (buildIndex db0).2 ++ newBindings done db0 →
      st.cur = done.map (fun p => (p.1, fillSk p.2)) →
      (todo.foldl processOne st).db
        = (buildIndex db0).1.map
            (fun q => (q.1, updEntry (done ++ todo) db0 q))
          ++ seedsOf (done ++ todo) db0 ∧
      (todo.foldl processOne st).cur
        = (done ++ todo).map (fun p => (p.1, fillSk p.2)) := by
  intro todo
  induction todo with
  | nil =>
    intro done st _ _ _ hdb hidx hcur
    rw [List.append_nil]
    exact ⟨hdb, hcur⟩
  | cons p rest ih =>
    intro done st hpw1 hpw3 hpw4 hdb hidx hcur
    have hbiNodup : ((buildIndex db0).1).Pairwise (fun a b => a.1 ≠ b.1) := by
      rw [buildIndex_fst]
      exact (List.pairwise_map).mpr hdb0
    have hkey : keyMem st.db p.1 = keyMem db0 p.1 := by
      rw [hdb, keyMem_append, keyMem_map, keyMem_buildIndex_fst]
      have hseeds : keyMem (seedsOf done db0) p.1 = false := by
        cases hsm : keyMem (seedsOf done db0) p.1
        · rfl
        · exfalso
          obtain ⟨v, hv⟩ := keyMem_exists hsm
          rw [seedsOf, lookupA_map] at hv
          obtain ⟨q, hq, -⟩ := Option.map_eq_some'.mp hv
          have hq1 : q.1 = p.1 := by simpa using List.find?_some hq
          have hqmem : q ∈ done :=
            List.mem_of_mem_filter (List.mem_of_find?_eq_some hq)
          exact (List.pairwise_append.mp hpw1).2.2 q hqmem p
            (List.mem_cons_self p rest) hq1
      rw [hseeds]
      simp
    have hidxlk : lookupA st.idx (skOf p.2)
        = lookupA (buildIndex db0).2 (skOf p.2) := by
      rw [hidx, lookupA_append]
      cases h0 : lookupA (buildIndex db0).2 (skOf p.2) with
      | some v => rfl
      | none =>
        show lookupA (newBindings done db0) (skOf p.2) = none
        apply lookupA_eq_none_of
        intro q hq
        rw [newBindings] at hq
        obtain ⟨r, hr, hrq⟩ := List.mem_map.mp hq
        have hrdone : r ∈ done := List.mem_of_mem_filter hr
        rw [← hrq]
        exact (List.pairwise_append.mp hpw3).2.2 r hrdone p
          (List.mem_cons_self p rest)
    have htgt_eq : (if keyMem st.db p.1 then some p.1
        else lookupA st.idx (skOf p.2)) = target0 db0 p := by
      unfold target0
      rw [hkey, hidxlk]
    rw [List.append_cons] at hpw1 hpw3 hpw4
    cases ht : target0 db0 p with
    | none =>
      have htgt : (if keyMem st.db p.1 then some p.1
          else lookupA st.idx (skOf p.2)) = none := by
        rw [htgt_eq, ht]
      have hdmf : keyMem st.db p.1 = false := by
        cases hdm : keyMem st.db p.1
        · rfl
        · rw [hdm] at htgt
          simp at htgt
      have hidxn : lookupA st.idx (skOf p.2) = none := by
        rw [hdmf] at htgt
        simpa using htgt
      rw [List.foldl_cons, processOne_new st p hdmf hidxn]
      have hres := ih (done ++ [p])
        ⟨setA st.db p.1 (seedEntry (fillSk p.2) (skOf p.2)),
         setA st.idx (skOf p.2) p.1,
         setA st.news p.1 (fillSk p.2),
         st.changed,
         st.cur ++ [(p.1, fillSk p.2)]⟩
        hpw1 hpw3 hpw4
        (by
          show setA st.db p.1 (seedEntry (fillSk p.2) (skOf p.2)) = _
          rw [setA_absent _ (hdb ▸ hdmf), hdb, List.append_assoc,
            seedsOf_append_none done p db0 (by rw [ht]; rfl)]
          congr 1
          apply List.map_congr_left
          intro q hq
          rw [updEntry_append_none done p db0 q (by rw [ht]; rfl)])
        (by
          show setA st.idx (skOf p.2) p.1 = _
          have hkidx : keyMem st.idx (skOf p.2) = false := by
            rw [keyMem, hidxn]
            rfl
          rw [setA_absent _ hkidx, hidx, List.append_assoc,
            newBindings_append_none done p db0 (by rw [ht]; rfl)])
        (by
          show st.cur ++ [(p.1, fillSk p.2)] = _
          rw [hcur, List.map_append]
          rfl)
      rw [← List.append_cons] at hres
      exact hres
    | some eid =>
      have htgt : (if keyMem st.db p.1 then some p.1
          else lookupA st.idx (skOf p.2)) = some eid := by
        rw [htgt_eq, ht]
      have hkm : keyMem db0 eid = true := target0_some_keyMem ht
      have hfnone : done.find? (fun r => decide (target0 db0 r = some eid))
          = none := by
        apply List.find?_eq_none.mpr
        intro r hr
        simp only [decide_eq_true_eq]
        intro hcontra
        have hdp := (List.pairwise_append.mp (List.pairwise_append.mp hpw4).1).2.2
        exact absurd ht (hdp r hr p (List.mem_cons_self p []) eid hcontra)
      have hkmBi : keyMem (buildIndex db0).1 eid = true := by
        rw [keyMem_buildIndex_fst]
        exact hkm
      obtain ⟨e0, he0bi⟩ := keyMem_exists hkmBi
      have hfind : (buildIndex db0).1.find? (fun q => decide (q.1 = eid))
          = some (eid, e0) := by
        have h1 := lookupA_find? (buildIndex db0).1 eid
        rw [he0bi] at h1
        obtain ⟨w, hw, hw2⟩ := Option.map_eq_some'.mp h1.symm
        have hw1 : w.1 = eid := by simpa using List.find?_some hw
        have hwe : w = (eid, e0) := Prod.ext hw1 hw2
        rw [← hwe]
        exact hw
      have hupd0 : updEntry done db0 (eid, e0) = e0 := by
        unfold updEntry
        rw [hfnone]
      have hmp : lookupA ((buildIndex db0).1.map
          (fun q => (q.1, updEntry done db0 q))) eid = some e0 := by
        rw [lookupA_map, hfind]
        show some (updEntry done db0 (eid, e0)) = some e0
        rw [hupd0]
      have he : lookupA st.db eid = some e0 := by
        rw [hdb, lookupA_append, hmp]
        rfl
      rw [List.foldl_cons, processOne_hit st p eid e0 htgt he]
      have hres := ih (done ++ [p])
        ⟨setA st.db eid (touchEntry e0 (fillSk p.2) (skOf p.2)),
         st.idx, st.news,
         if entryChanges e0 (fillSk p.2) ≠ [] then
           setA st.changed eid (changedOf e0 (fillSk p.2) (skOf p.2))
         else st.changed,
         st.cur ++ [(p.1, fillSk p.2)]⟩
        hpw1 hpw3 hpw4
        (by
          show setA st.db eid (touchEntry e0 (fillSk p.2) (skOf p.2)) = _
          rw [hdb,
            setA_append_left _
              (by rw [keyMem_map, keyMem_buildIndex_fst]; exact hkm),
            setA_map_nodup (updEntry done db0) _ hbiNodup
              (by rw [keyMem_buildIndex_fst]; exact hkm),
            seedsOf_append_some done p db0 (by rw [ht]; rfl)]
          congr 1
          apply List.map_congr_left
          intro q hq
          by_cases hqe : q.1 = eid
          · rw [if_pos hqe]
            have hq2 : q.2 = e0 := by
              have hl := lookupA_mem_nodup hbiNodup hq
              rw [hqe, he0bi] at hl
              injection hl with hl
              exact hl.symm
            rw [updEntry_append_some done p db0 q (by rw [hqe]; exact hfnone)
              (by rw [hqe, ht]; simp), hq2]
          · rw [if_neg hqe, updEntry_append_none done p db0 q
              (by
                rw [ht]
                exact decide_eq_false
                  (fun hx => hqe (by injection hx with hx; exact hx.symm)))]
        )
        (by
          show st.idx = _
          rw [hidx, newBindings_append_some done p db0 (by rw [ht]; rfl)])
        (by
          show st.cur ++ [(p.1, fillSk p.2)] = _
          rw [hcur, List.map_append]
          rfl)
      rw [← List.append_cons] at hres
      exact hres

/-- The detector's outputs of one run: the mutated store is `run1Db` and the
mutated current records are their stable-key-filled forms. -/
theorem run1_characterization (current db0 : List (String × Rec))
    (hdb0 : db0.Pairwise (fun a b => a.1 ≠ b.1))
    (h1 : current.Pairwise (fun a b => a.1 ≠ b.1))
    (h3 : current.Pairwise (fun a b => skOf a.2 ≠ skOf b.2))
    (h4 : current.Pairwise
      (fun a b => ∀ k, target0 db0 a = some k → target0 db0 b ≠ some k)) :
    (detect_changes current db0).database = run1Db current db0 ∧
    (detect_changes current db0).current
      = current.map (fun p => (p.1, fillSk p.2)) := by
  have hrun := run1_inv db0 hdb0 current []
    ⟨(buildIndex db0).1, (buildIndex db0).2, [], [], []⟩
    (by simpa using h1) (by simpa using h3) (by simpa using h4)
    (by
      show (buildIndex db0).1
        = (buildIndex db0).1.map (fun q => (q.1, updEntry [] db0 q))
          ++ seedsOf [] db0
      have hu : ∀ q ∈ (buildIndex db0).1,
          ((q.1, updEntry [] db0 q) : String × Rec) = (q.1, q.2) := by
        intro q _
        rfl
      rw [List.map_congr_left hu]
      simp [seedsOf])
    (by
      show (buildIndex db0).2 = (buildIndex db0).2 ++ newBindings [] db0
      simp [newBindings])
    rfl
  simp only [List.nil_append] at hrun
  exact ⟨hrun.1, hrun.2⟩

/-- When every remaining record resolves to a distinct, up-to-date store
entry, the loop files nothing new and nothing changed. -/
theorem run2_aux (db : List (String × Rec)) :
    ∀ (todo : List (String × Rec)) (st : DetectState),
      st.news = [] → st.changed = [] → st.idx = (buildIndex db).2 →
      (∀ k, keyMem st.db k = keyMem (buildIndex db).1 k) →
      (∀ p ∈ todo, ∃ eid e, dynTarget st.db st.idx p = some eid ∧
        lookupA st.db eid = some e ∧ e.price = p.2.price ∧
        e.auction_date = p.2.auction_date) →
      todo.Pairwise
        (fun a b => dynTarget st.db st.idx a ≠ dynTarget st.db st.idx b) →
      (todo.foldl processOne st).news = []
        ∧ (todo.foldl processOne st).changed = [] := by
  intro todo
  induction todo with
  | nil =>
    intro st hn hc _ _ _ _
    exact ⟨hn, hc⟩
  | cons p rest ih =>
    intro st hn hc hidx hkeys hP hpw
    obtain ⟨eid, e, htp, he, hpr, hdt⟩ := hP p (List.mem_cons_self p rest)
    have hchg : entryChanges e (fillSk p.2) = [] := by
      simp [entryChanges, fillSk_price, fillSk_auction_date, hpr, hdt]
    have hkm_eid : keyMem st.db eid = true := by
      rw [keyMem, he]
      rfl
    have hdyn : ∀ x, dynTarget (setA st.db eid
        (touchEntry e (fillSk p.2) (skOf p.2))) st.idx x
        = dynTarget st.db st.idx x := by
      intro x
      unfold dynTarget
      have hout : keyMem (setA st.db eid
          (touchEntry e (fillSk p.2) (skOf p.2))) x.1 = keyMem st.db x.1 := by
        rw [keyMem_setA]
        by_cases h : eid = x.1
        · rw [← h, hkm_eid]
          simp
        · simp [h]
      rw [hout]
    rw [List.foldl_cons, processOne_hit st p eid e htp he]
    refine ih
      ⟨setA st.db eid (touchEntry e (fillSk p.2) (skOf p.2)),
       st.idx, st.news,
       if entryChanges e (fillSk p.2) ≠ [] then
         setA st.changed eid (changedOf e (fillSk p.2) (skOf p.2))
       else st.changed,
       st.cur ++ [(p.1, fillSk p.2)]⟩
      hn ?_ hidx ?_ ?_ ?_
    · show (if entryChanges e (fillSk p.2) ≠ [] then
          setA st.changed eid (changedOf e (fillSk p.2) (skOf p.2))
        else st.changed) = []
      rw [if_neg (by simp [hchg])]
      exact hc
    · intro k
      show keyMem (setA st.db eid (touchEntry e (fillSk p.2) (skOf p.2))) k
        = keyMem (buildIndex db).1 k
      rw [keyMem_setA, ← hkeys k]
      by_cases hk : eid = k
      · rw [← hk, hkm_eid]
        simp
      · simp [hk]
    · intro q hq
      obtain ⟨eidq, eq', htq, heq, h1q, h2q⟩ := hP q (List.mem_cons_of_mem p hq)
      have hne : ¬ eid = eidq := by
        intro hx
        have := (List.pairwise_cons.mp hpw).1 q hq
        rw [htp, htq, hx] at this
        exact this rfl
      refine ⟨eidq, eq', ?_, ?_, h1q, h2q⟩
      · show dynTarget (setA st.db eid
          (touchEntry e (fillSk p.2) (skOf p.2))) st.idx q = some eidq
        rw [hdyn q]
        exact htq
      · show lookupA (setA st.db eid
          (touchEntry e (fillSk p.2) (skOf p.2))) eidq = some eq'
        rw [lookupA_setA, if_neg hne]
        exact heq
    · refine ((List.pairwise_cons.mp hpw).2).imp ?_
      intro a b hab
      show dynTarget (setA st.db eid (touchEntry e (fillSk p.2) (skOf p.2)))
          st.idx a
        ≠ dynTarget (setA st.db eid (touchEntry e (fillSk p.2) (skOf p.2)))
          st.idx b
      rw [hdyn a, hdyn b]
      exact hab

/-- A run over records that all resolve to distinct, up-to-date entries of
the store reports nothing. -/
theorem run2_empty (cur db : List (String × Rec))
    (hP : ∀ p ∈ cur, ∃ eid e,
      dynTarget (buildIndex db).1 (buildIndex db).2 p = some eid ∧
      lookupA (buildIndex db).1 eid = some e ∧
      e.price = p.2.price ∧ e.auction_date = p.2.auction_date)
    (hpw : cur.Pairwise (fun a b =>
      dynTarget (buildIndex db).1 (buildIndex db).2 a
        ≠ dynTarget (buildIndex db).1 (buildIndex db).2 b)) :
    (detect_changes cur db).new_listings = [] ∧
    (detect_changes cur db).changed_properties = [] := by
  exact run2_aux db cur ⟨(buildIndex db).1, (buildIndex db).2, [], [], []⟩
    rfl rfl rfl (fun _ => rfl) hP hpw

/-- An unmatched record's id is not a store key. -/
theorem target0_none_keyMem {db : List (String × Rec)} {p : String × Rec}
    (h : target0 db p = none) : keyMem db p.1 = false := by
  unfold target0 at h
  cases hk : keyMem db p.1
  · rfl
  · rw [hk] at h
    simp at h

/-- A store-keyed record matches directly. -/
theorem target0_of_keyMem {db : List (String × Rec)} {p : String × Rec}
    (hk : keyMem db p.1 = true) : target0 db p = some p.1 := by
  unfold target0
  rw [if_pos hk]

/-- A record whose id is no store key matches through the stable index. -/
theorem target0_of_keyMem_false {db : List (String × Rec)} {p : String × Rec}
    (hk : keyMem db p.1 = false) :
    target0 db p = lookupA (buildIndex db).2 (skOf p.2) := by
  unfold target0
  rw [hk]
  rfl

/-- A read-back value names the first binding exactly. -/
theorem find?_of_lookupA {α : Type} {l : List (String × α)} {k : String} {v : α}
    (h : lookupA l k = some v) :
    l.find? (fun q => decide (q.1 = k)) = some (k, v) := by
  have h1 := lookupA_find? l k
  rw [h] at h1
  obtain ⟨w, hw, hw2⟩ := Option.map_eq_some'.mp h1.symm
  have hw1 : w.1 = k := by simpa using List.find?_some hw
  have hwe : w = (k, v) := Prod.ext hw1 hw2
  rw [← hwe]
  exact hw

/-- With pairwise-distinct targets, a record is the first to match its own
target. -/
theorem find_target_self (current db0 : List (String × Rec))
    (h4 : current.Pairwise
      (fun a b => ∀ k, target0 db0 a = some k → target0 db0 b ≠ some k))
    {p : String × Rec} {eid : String} (hp : p ∈ current)
    (ht : target0 db0 p = some eid) :
    current.find? (fun r => decide (target0 db0 r = some eid)) = some p := by
  refine find_of_pairwise current ?_ p hp (by rw [ht]; simp)
  refine h4.imp ?_
  intro a b hab ha
  simp only [decide_eq_true_eq] at ha
  exact decide_eq_false (hab eid ha)

/-- A new listing's entry in the post-run store. -/
theorem run1Db_new_entry (current db0 : List (String × Rec))
    (h1 : current.Pairwise (fun a b => a.1 ≠ b.1))
    {p : String × Rec} (hp : p ∈ current) (ht : target0 db0 p = none) :
    lookupA (run1Db current db0) p.1
      = some (seedEntry (fillSk p.2) (skOf p.2)) := by
  have hkm0 : keyMem db0 p.1 = false := target0_none_keyMem ht
  have hfilter : p ∈ current.filter (fun q => decide (target0 db0 q = none)) :=
    List.mem_filter.mpr ⟨hp, by rw [ht]; rfl⟩
  have hpwf : (current.filter
      (fun q => decide (target0 db0 q = none))).Pairwise
      (fun a b => a.1 ≠ b.1) :=
    h1.sublist (List.filter_sublist current)
  have hfind : (current.filter (fun q => decide (target0 db0 q = none))).find?
      (fun q => decide (q.1 = p.1)) = some p := by
    refine find_of_pairwise _ ?_ p hfilter (by simp)
    refine hpwf.imp ?_
    intro a b hab ha
    simp only [decide_eq_true_eq] at ha
    exact decide_eq_false (fun hb => hab (by rw [ha, hb]))
  have hseeds : lookupA (seedsOf current db0) p.1
      = some (seedEntry (fillSk p.2) (skOf p.2)) := by
    unfold seedsOf
    rw [lookupA_map, hfind]
    rfl
  have hmapnone : lookupA ((buildIndex db0).1.map
      (fun q => (q.1, updEntry current db0 q))) p.1 = none := by
    apply lookupA_of_keyMem_false
    rw [keyMem_map, keyMem_buildIndex_fst]
    exact hkm0
  unfold run1Db
  rw [lookupA_append, hmapnone, hseeds]
  rfl

/-- A matched record's entry in the post-run store. -/
theorem run1Db_matched_entry (current db0 : List (String × Rec))
    (h4 : current.Pairwise
      (fun a b => ∀ k, target0 db0 a = some k → target0 db0 b ≠ some k))
    {p : String × Rec} {eid : String} (hp : p ∈ current)
    (ht : target0 db0 p = some eid) :
    ∃ e0, lookupA (buildIndex db0).1 eid = some e0 ∧
      lookupA (run1Db current db0) eid
        = some (touchEntry e0 (fillSk p.2) (skOf p.2)) := by
  have hkm : keyMem db0 eid = true := target0_some_keyMem ht
  have hkmBi : keyMem (buildIndex db0).1 eid = true := by
    rw [keyMem_buildIndex_fst]
    exact hkm
  obtain ⟨e0, he0⟩ := keyMem_exists hkmBi
  refine ⟨e0, he0, ?_⟩
  have hfsome := find_target_self current db0 h4 hp ht
  have hupd : updEntry current db0 (eid, e0)
      = touchEntry e0 (fillSk p.2) (skOf p.2) := by
    unfold updEntry
    rw [hfsome]
  have hmp : lookupA ((buildIndex db0).1.map
      (fun q => (q.1, updEntry current db0 q))) eid
      = some (touchEntry e0 (fillSk p.2) (skOf p.2)) := by
    rw [lookupA_map, find?_of_lookupA he0]
    show some (updEntry current db0 (eid, e0)) = _
    rw [hupd]
  unfold run1Db
  rw [lookupA_append, hmp]
  rfl

/-- The rebuilt stable index still routes an index-matched record's key to
the same store id after the run: entries ahead of it keep or change their
working key away from this one, and the matched entry's key becomes exactly
this one. -/
theorem run1Db_idx_target (current db0 : List (String × Rec))
    (hdb0 : db0.Pairwise (fun a b => a.1 ≠ b.1))
    (h3 : current.Pairwise (fun a b => skOf a.2 ≠ skOf b.2))
    (h4 : current.Pairwise
      (fun a b => ∀ k, target0 db0 a = some k → target0 db0 b ≠ some k))
    {p : String × Rec} {eid : String} (hp : p ∈ current)
    (ht : target0 db0 p = some eid)
    (hlk : lookupA (buildIndex db0).2 (skOf p.2) = some eid) :
    lookupA (buildIndex (run1Db current db0)).2 (skOf p.2) = some eid := by
  have hskne : skOf p.2 ≠ "" := skOf_ne_empty p.2
  rw [buildIndex_idx _ _ hskne]
  rw [buildIndex_idx db0 _ hskne] at hlk
  obtain ⟨r0, hr0, hr0fst⟩ := Option.map_eq_some'.mp hlk
  obtain ⟨l1, l2, hdec, hall⟩ := find?_decomp hr0
  have hfsome := find_target_self current db0 h4 hp ht
  have hdb1 : run1Db current db0
      = db0.map (fun q => (q.1, updEntry current db0 (q.1, fillSk q.2)))
        ++ seedsOf current db0 := by
    unfold run1Db
    rw [buildIndex_fst, List.map_map]
    rfl
  have hobl1 : ∀ x ∈ l1,
      (fun q : String × Rec =>
        decide (skOf (updEntry current db0 (q.1, fillSk q.2)) = skOf p.2)) x
        = false := by
    intro x hx
    apply decide_eq_false
    intro hcontra
    cases hfx : current.find? (fun r => decide (target0 db0 r = some x.1)) with
    | none =>
      have hue : updEntry current db0 (x.1, fillSk x.2) = fillSk x.2 := by
        unfold updEntry
        rw [hfx]
      rw [hue, skOf_fillSk] at hcontra
      have hfx2 := hall x hx
      rw [hcontra] at hfx2
      simp at hfx2
    | some r =>
      have hue : updEntry current db0 (x.1, fillSk x.2)
          = touchEntry (fillSk x.2) (fillSk r.2) (skOf r.2) := by
        unfold updEntry
        rw [hfx]
      rw [hue, skOf_touchEntry _ _ (skOf_ne_empty r.2)] at hcontra
      have hrmem : r ∈ current := List.mem_of_find?_eq_some hfx
      have hpw3' : current.Pairwise
          (fun a b => decide (skOf a.2 = skOf p.2) = true →
            decide (skOf b.2 = skOf p.2) = false) := by
        refine h3.imp ?_
        intro a b hab ha
        simp only [decide_eq_true_eq] at ha
        exact decide_eq_false (fun hb => hab (by rw [ha, hb]))
      have hrp : r = p :=
        pairwise_pred_unique hpw3' hrmem hp (by rw [hcontra]; simp) (by simp)
      have htx : target0 db0 p = some x.1 := by
        have hfs := List.find?_some hfx
        rw [hrp] at hfs
        simpa using hfs
      rw [ht] at htx
      injection htx with htx
      have hids : (l1 ++ r0 :: l2).Pairwise (fun a b => a.1 ≠ b.1) := by
        rw [← hdec]
        exact hdb0
      have hxr0 : x.1 ≠ r0.1 :=
        (List.pairwise_append.mp hids).2.2 x hx r0 (List.mem_cons_self r0 l2)
      exact hxr0 (by rw [← htx, hr0fst])
  have hobl2 : (fun q : String × Rec =>
      decide (skOf (updEntry current db0 (q.1, fillSk q.2)) = skOf p.2)) r0
      = true := by
    have hue : updEntry current db0 (r0.1, fillSk r0.2)
        = touchEntry (fillSk r0.2) (fillSk p.2) (skOf p.2) := by
      unfold updEntry
      rw [hr0fst, hfsome]
    show decide (skOf (updEntry current db0 (r0.1, fillSk r0.2)) = skOf p.2)
      = true
    rw [hue, skOf_touchEntry _ _ hskne]
    simp
  have hfind0 : db0.find?
      (fun q => decide (skOf (updEntry current db0 (q.1, fillSk q.2))
        = skOf p.2)) = some r0 := by
    have h2 := @find?_of_decomp (String × Rec) l1 l2 _ r0 hobl1 hobl2
    rw [← hdec] at h2
    exact h2
  have hmfind : (db0.map
      (fun q => (q.1, updEntry current db0 (q.1, fillSk q.2)))).find?
      (fun q => decide (skOf q.2 = skOf p.2))
      = some (r0.1, updEntry current db0 (r0.1, fillSk r0.2)) := by
    rw [List.find?_map _ db0]
    have hcomp : ((fun q : String × Rec => decide (skOf q.2 = skOf p.2))
        ∘ (fun q : String × Rec =>
            (q.1, updEntry current db0 (q.1, fillSk q.2))))
        = fun q : String × Rec =>
            decide (skOf (updEntry current db0 (q.1, fillSk q.2))
              = skOf p.2) := rfl
    rw [hcomp, hfind0]
    rfl
  rw [hdb1, List.find?_append, hmfind]
  show some r0.1 = some eid
  rw [hr0fst]

/-- After one run, every current record resolves in the mutated store to an
entry that already carries its price and auction date. -/
theorem run2_precond (current db0 : List (String × Rec))
    (hdb0 : db0.Pairwise (fun a b => a.1 ≠ b.1))
    (h1 : current.Pairwise (fun a b => a.1 ≠ b.1))
    (h3 : current.Pairwise (fun a b => skOf a.2 ≠ skOf b.2))
    (h4 : current.Pairwise
      (fun a b => ∀ k, target0 db0 a = some k → target0 db0 b ≠ some k)) :
    ∀ p ∈ current,
      dynTarget (buildIndex (run1Db current db0)).1
          (buildIndex (run1Db current db0)).2 (p.1, fillSk p.2)
        = some ((target0 db0 p).getD p.1) ∧
      ∃ e, lookupA (buildIndex (run1Db current db0)).1
          ((target0 db0 p).getD p.1) = some e ∧
        e.price = (fillSk p.2).price ∧
        e.auction_date = (fillSk p.2).auction_date := by
  intro p hp
  cases ht : target0 db0 p with
  | none =>
    have hent := run1Db_new_entry current db0 h1 hp ht
    have hkm1 : keyMem (run1Db current db0) p.1 = true := by
      rw [keyMem, hent]
      rfl
    have hkmbi : keyMem (buildIndex (run1Db current db0)).1 p.1 = true := by
      rw [keyMem_buildIndex_fst]
      exact hkm1
    constructor
    · simp [dynTarget, hkmbi]
    · refine ⟨seedEntry (fillSk p.2) (skOf p.2), ?_, rfl, rfl⟩
      show lookupA (buildIndex (run1Db current db0)).1 p.1
        = some (seedEntry (fillSk p.2) (skOf p.2))
      rw [lookupA_buildIndex_fst, hent]
      show some (fillSk (seedEntry (fillSk p.2) (skOf p.2))) = _
      rw [fillSk_of_skRaw_ne
        (by rw [skRaw_seedEntry]; exact skOf_ne_empty p.2)]
  | some eid =>
    obtain ⟨e0, he0, hent⟩ := run1Db_matched_entry current db0 h4 hp ht
    have hentry : lookupA (buildIndex (run1Db current db0)).1 eid
        = some (touchEntry e0 (fillSk p.2) (skOf p.2)) := by
      rw [lookupA_buildIndex_fst, hent]
      show some (fillSk (touchEntry e0 (fillSk p.2) (skOf p.2))) = _
      rw [fillSk_of_skRaw_ne
        (by rw [skRaw_touchEntry]; exact skOf_ne_empty p.2)]
    constructor
    · by_cases hdm : keyMem db0 p.1 = true
      · have heq : eid = p.1 := by
          have hdir := target0_of_keyMem hdm
          rw [ht] at hdir
          injection hdir with h2
        subst heq
        have hkm1 : keyMem (run1Db current db0) p.1 = true := by
          rw [keyMem, hent]
          rfl
        have hkmbi : keyMem (buildIndex (run1Db current db0)).1 p.1 = true := by
          rw [keyMem_buildIndex_fst]
          exact hkm1
        simp [dynTarget, hkmbi]
      · have hdmf : keyMem db0 p.1 = false := by
          cases h : keyMem db0 p.1
          · rfl
          · exact absurd h hdm
        have hlk : lookupA (buildIndex db0).2 (skOf p.2) = some eid := by
          have hx := target0_of_keyMem_false hdmf
          rw [ht] at hx
          exact hx.symm
        have hkmf1 : keyMem (run1Db current db0) p.1 = false := by
          unfold run1Db
          rw [keyMem_append, keyMem_map, keyMem_buildIndex_fst, hdmf]
          have hseedsf : keyMem (seedsOf current db0) p.1 = false := by
            cases hsm : keyMem (seedsOf current db0) p.1
            · rfl
            · exfalso
              obtain ⟨v, hv⟩ := keyMem_exists hsm
              rw [seedsOf, lookupA_map] at hv
              obtain ⟨q, hq, -⟩ := Option.map_eq_some'.mp hv
              have hq1 : q.1 = p.1 := by simpa using List.find?_some hq
              have hqc : q ∈ current :=
                List.mem_of_mem_filter (List.mem_of_find?_eq_some hq)
              have hqn : target0 db0 q = none := by
                have hm2 := (List.mem_filter.mp
                  (List.mem_of_find?_eq_some hq)).2
                simpa using hm2
              have hpwid : current.Pairwise
                  (fun a b => decide (a.1 = p.1) = true →
                    decide (b.1 = p.1) = false) := by
                refine h1.imp ?_
                intro a b hab ha
                simp only [decide_eq_true_eq] at ha
                exact decide_eq_false (fun hb => hab (by rw [ha, hb]))
              have hqp : q = p :=
                pairwise_pred_unique hpwid hqc hp (by rw [hq1]; simp) (by simp)
              rw [hqp, ht] at hqn
              cases hqn
          rw [hseedsf]
          rfl
        have hkmfbi : keyMem (buildIndex (run1Db current db0)).1 p.1
            = false := by
          rw [keyMem_buildIndex_fst]
          exact hkmf1
        have hidxt := run1Db_idx_target current db0 hdb0 h3 h4 hp ht hlk
        simp [dynTarget, hkmfbi, skOf_fillSk, hidxt]
    · exact ⟨touchEntry e0 (fillSk p.2) (skOf p.2), hentry, rfl, rfl⟩

/-- After one run, distinct current records resolve to distinct entries. -/
theorem run2_pairwise (current db0 : List (String × Rec))
    (hdb0 : db0.Pairwise (fun a b => a.1 ≠ b.1))
    (h1 : current.Pairwise (fun a b => a.1 ≠ b.1))
    (h3 : current.Pairwise (fun a b => skOf a.2 ≠ skOf b.2))
    (h4 : current.Pairwise
      (fun a b => ∀ k, target0 db0 a = some k → target0 db0 b ≠ some k)) :
    (current.map (fun p => (p.1, fillSk p.2))).Pairwise
      (fun a b => dynTarget (buildIndex (run1Db current db0)).1
          (buildIndex (run1Db current db0)).2 a
        ≠ dynTarget (buildIndex (run1Db current db0)).1
          (buildIndex (run1Db current db0)).2 b) := by
  rw [List.pairwise_map]
  have hpre := run2_precond current db0 hdb0 h1 h3 h4
  refine (h1.and h4).imp_of_mem ?_
  intro a b ha hb hab
  obtain ⟨haid, hatgt⟩ := hab
  rw [(hpre a ha).1, (hpre b hb).1]
  intro heq
  injection heq with heq
  cases hta : target0 db0 a with
  | none =>
    cases htb : target0 db0 b with
    | none =>
      rw [hta, htb] at heq
      simp only [Option.getD_none] at heq
      exact haid heq
    | some kb =>
      rw [hta, htb] at heq
      simp only [Option.getD_none, Option.getD_some] at heq
      have hka : keyMem db0 a.1 = false := target0_none_keyMem hta
      have hkb : keyMem db0 kb = true := target0_some_keyMem htb
      rw [heq] at hka
      rw [hka] at hkb
      cases hkb
  | some ka =>
    cases htb : target0 db0 b with
    | none =>
      rw [hta, htb] at heq
      simp only [Option.getD_none, Option.getD_some] at heq
      have hka : keyMem db0 ka = true := target0_some_keyMem hta
      have hkb : keyMem db0 b.1 = false := target0_none_keyMem htb
      rw [heq] at hka
      rw [hka] at hkb
      cases hkb
    | some kb =>
      rw [hta, htb] at heq
      simp only [Option.getD_some] at heq
      exact (hatgt ka hta) (by rw [htb, heq])

/-- C4 (counterexample): two sightings of one property under different
record-ids but one stable key, pushed through two runs against an initially
empty store: the first run files the first sighting as new and then matches
the second sighting onto that same fresh entry, leaving the entry with the
second price; the second run, fed the store and records the first run
mutated, matches the first sighting directly and sees its price differ from
the stored one again, so the second pass still reports a changed property —
feeding the Change Detector the same snapshot twice is not idempotent. -/
theorem idempotence_fails_on_shared_stable_key :
    (detect_changes (detect_changes sharedSkCurrent []).current
        (detect_changes sharedSkCurrent []).database).changed_properties.length
      = 1 := rfl

/-- C4 (amended): when the store's record-ids are pairwise distinct, the
snapshot's record-ids are pairwise distinct, its records' stable keys are
pairwise distinct, and no two of its records match the same store entry,
running detect_changes a second time with the snapshot and store as mutated
by the first run yields no new listings and no changed properties. Without
the shared-key provisos the claim is false: two records sharing a stable key
make the first run leave the matched entry with the later record's price, so
the second run reports a price change again. -/
theorem detect_changes_idempotent (current db0 : List (String × Rec))
    (hdb0 : (db0.map Prod.fst).Nodup)
    (h1 : (current.map Prod.fst).Nodup)
    (h3 : (current.map (fun p => skOf p.2)).Nodup)
    (h4 : current.Pairwise
      (fun a b => ∀ k, target0 db0 a = some k → target0 db0 b ≠ some k)) :
    (detect_changes (detect_changes current db0).current
        (detect_changes current db0).database).new_listings = [] ∧
    (detect_changes (detect_changes current db0).current
        (detect_changes current db0).database).changed_properties = [] := by
  have hcdb0 : db0.Pairwise (fun a b => a.1 ≠ b.1) := List.pairwise_map.mp hdb0
  have hc1 : current.Pairwise (fun a b => a.1 ≠ b.1) := List.pairwise_map.mp h1
  have hc3 : current.Pairwise (fun a b => skOf a.2 ≠ skOf b.2) :=
    List.pairwise_map.mp h3
  obtain ⟨hdbeq, hcureq⟩ :=
    run1_characterization current db0 hcdb0 hc1 hc3 h4
  rw [hdbeq, hcureq]
  refine run2_empty _ _ ?_ ?_
  · intro p' hp'
    obtain ⟨p, hp, hpe⟩ := List.mem_map.mp hp'
    obtain ⟨htgt, e, hee, hpr, hdt⟩ :=
      run2_precond current db0 hcdb0 hc1 hc3 h4 p hp
    rw [← hpe]
    exact ⟨(target0 db0 p).getD p.1, e, htgt, hee, hpr, hdt⟩
  · exact run2_pairwise current db0 hcdb0 hc1 hc3 h4

/-- The idempotence theorem at the end-to-end scenario's single record
against an empty store. -/
theorem detect_changes_idempotent_witness :
    (([(menaraId, menaraRec1)].map Prod.fst).Nodup ∧
     (([] : List (String × Rec)).map Prod.fst).Nodup ∧
     ([(menaraId, menaraRec1)].map (fun p => skOf p.2)).Nodup ∧
     [(menaraId, menaraRec1)].Pairwise
       (fun a b => ∀ k, target0 [] a = some k → target0 [] b ≠ some k)) ∧
    ((detect_changes (detect_changes [(menaraId, menaraRec1)] []).current
        (detect_changes [(menaraId, menaraRec1)] []).database).new_listings
      = [] ∧
     (detect_changes (detect_changes [(menaraId, menaraRec1)] []).current
        (detect_changes [(menaraId, menaraRec1)] []).database).changed_properties
      = []) :=
  ⟨⟨List.nodup_singleton _, List.nodup_nil, List.nodup_singleton _,
    List.pairwise_singleton _ _⟩,
   detect_changes_idempotent [(menaraId, menaraRec1)] [] List.nodup_nil
     (List.nodup_singleton _) (List.nodup_singleton _)
     (List.pairwise_singleton _ _)⟩
